import Mathlib

/-!
Shallow embedding of the chess rules engine (`src/chess.rs`), the wire
protocol and the session state machine (`src/net_chess.rs`) of the
repository, together with proofs about the specified properties.

Conventions of the embedding:
* `usize` coordinates become `Nat`; signed offsets (`i64` in the source)
  become `Int` with the same arithmetic.
* The 8×8 array `board_state: [[BoardSquare; 8]; 8]` indexed as
  `board_state[pos.1][pos.0]` becomes a total function
  `BoardPosition → BoardSquare`; a square write becomes a pointwise
  functional update (`setSq`).
* Fallible/panicking paths of the source are noted at each definition:
  a Rust `panic!`/`assert!`/`unwrap` has no return value, so the total
  model picks an explicit value there and the theorems carry hypotheses
  that keep those paths unreachable wherever the choice could matter.
-/

inductive Color where
  | White
  | Black
deriving DecidableEq

/-- `impl Not for Color` in the source. -/
def Color.not : Color → Color
  | .White => .Black
  | .Black => .White

inductive Piece where
  | Pawn (has_moved : Bool)
  | Knight
  | Bishop
  | Rook
  | Queen
  | King
deriving DecidableEq

inductive BoardSquare where
  | Empty
  | Occupied (piece : Piece) (color : Color)
deriving DecidableEq

/-- `pub struct BoardPosition(pub usize, pub usize)`: `x` is the source's
field `.0` (the file / column), `y` is field `.1` (the rank / row). -/
structure BoardPosition where
  x : Nat
  y : Nat
deriving DecidableEq

/-- `struct GameState` from `src/chess.rs`. The board array is embedded as a
total function from positions to squares; all reads in the source are of the
form `board_state[p.1][p.0]`, which the model writes `gs.board_state p`. -/
structure GameState where
  board_state : BoardPosition → BoardSquare
  turn : Color
  black_can_castle_left : Bool
  white_can_castle_left : Bool
  black_can_castle_right : Bool
  white_can_castle_right : Bool
  en_passant_square : Option BoardPosition

/-- Read `board_state[pos.1][pos.0]`. -/
def getSq (gs : GameState) (pos : BoardPosition) : BoardSquare :=
  gs.board_state pos

/-- Write `board_state[pos.1][pos.0] = sq` as a functional update. -/
def setSq (b : BoardPosition → BoardSquare) (pos : BoardPosition)
    (sq : BoardSquare) : BoardPosition → BoardSquare :=
  fun q => if q = pos then sq else b q

/-- The traversal order of `piece_iterator`: `(0..64).map(|x| BoardPosition(x / 8, x % 8))`. -/
def allPositions : List BoardPosition :=
  (List.range 64).map (fun x => ⟨x / 8, x % 8⟩)

/-- `piece_iterator`: every position paired with its square, keeping only
occupied squares, in the source's traversal order. -/
def piece_iterator (gs : GameState) : List (BoardPosition × BoardSquare) :=
  ((allPositions.map (fun pos => (pos, getSq gs pos))).filter
    (fun pr => pr.2 ≠ BoardSquare.Empty))

/-- `is_legal_start`: the square is occupied by a piece of the side to move. -/
def is_legal_start (gs : GameState) (pos : BoardPosition) : Bool :=
  match getSq gs pos with
  | .Occupied _ color => color = gs.turn
  | .Empty => false

/-- `is_valid_rook_move`: offset purely horizontal or vertical and every
square strictly between the endpoints empty. The source loops over
`start + 1 .. start + |diff|` with `start = min`; the model enumerates the
same `|diff| - 1` strictly-intermediate indices with `List.range'`. -/
def is_valid_rook_move (gs : GameState) (from_pos to_pos : BoardPosition) : Bool :=
  let dx : Int := (to_pos.x : Int) - (from_pos.x : Int)
  let dy : Int := (to_pos.y : Int) - (from_pos.y : Int)
  if dx ≠ 0 ∧ dy ≠ 0 then false
  else if dx = 0 then
    (List.range' (min from_pos.y to_pos.y + 1) (dy.natAbs - 1)).all
      (fun i => getSq gs ⟨from_pos.x, i⟩ = BoardSquare.Empty)
  else
    (List.range' (min from_pos.x to_pos.x + 1) (dx.natAbs - 1)).all
      (fun i => getSq gs ⟨i, from_pos.y⟩ = BoardSquare.Empty)

/-- `is_valid_bishop_move`: equal absolute offsets and every square strictly
between empty. The source walks one diagonal step at a time until the `x`
coordinate reaches the target, visiting `|dx| - 1` intermediate squares;
when `dx = 0 ∧ dy = 0` the source's loop walks off the board and panics on
the out-of-range index — that shape is unreachable from the engine's call
sites (see `is_square_attacked`), and the model returns `true` there. -/
def is_valid_bishop_move (gs : GameState) (from_pos to_pos : BoardPosition) : Bool :=
  let dx : Int := (to_pos.x : Int) - (from_pos.x : Int)
  let dy : Int := (to_pos.y : Int) - (from_pos.y : Int)
  if dx.natAbs ≠ dy.natAbs then false
  else
    let i_dir : Int := if 0 < dx then 1 else -1
    let j_dir : Int := if 0 < dy then 1 else -1
    (List.range (dx.natAbs - 1)).all (fun k =>
      getSq gs ⟨((from_pos.x : Int) + i_dir * ((k : Int) + 1)).toNat,
                ((from_pos.y : Int) + j_dir * ((k : Int) + 1)).toNat⟩
        = BoardSquare.Empty)

/-- `is_attacking_movement_ok`. The source panics when `from_pos` is empty
("From empty square") or when `to_pos` holds a piece of the same color
("Attacking wrong color"); its callers establish both. The model returns
`false` on the empty-from path and ignores the same-color panic (no caller
reaches it, and the per-piece geometry below does not read the target's
color). -/
def is_attacking_movement_ok (gs : GameState) (from_pos to_pos : BoardPosition)
    (pretend_occupied : Bool) : Bool :=
  match getSq gs from_pos with
  | .Empty => false
  | .Occupied piece color =>
    let dx : Int := (to_pos.x : Int) - (from_pos.x : Int)
    let dy : Int := (to_pos.y : Int) - (from_pos.y : Int)
    match piece with
    | .Knight =>
        (decide (dx.natAbs = 2) && decide (dy.natAbs = 1)) ||
        (decide (dx.natAbs = 1) && decide (dy.natAbs = 2))
    | .King => decide (dx.natAbs ≤ 1) && decide (dy.natAbs ≤ 1)
    | .Rook => is_valid_rook_move gs from_pos to_pos
    | .Bishop => is_valid_bishop_move gs from_pos to_pos
    | .Queen => is_valid_bishop_move gs from_pos to_pos || is_valid_rook_move gs from_pos to_pos
    | .Pawn _ =>
        (pretend_occupied || decide (getSq gs to_pos ≠ BoardSquare.Empty)) &&
        decide (dx.natAbs = 1) &&
        ((decide (dy = 1) && decide (color = Color.Black)) ||
         (decide (dy = -1) && decide (color = Color.White)))

/-- `is_square_attacked`: some piece of `attacker`'s color has a geometric
attack on `pos` (pawns in "pretend occupied" mode). The source asserts that
`pos` is not itself occupied by a piece of the attacker's color (true at
every engine call site); the model returns `false` on that panic path. -/
def is_square_attacked (gs : GameState) (pos : BoardPosition) (attacker : Color) : Bool :=
  match getSq gs pos with
  | .Occupied _ color =>
    if color = attacker then false
    else
      (piece_iterator gs).any (fun pr =>
        match pr.2 with
        | .Occupied _ c => decide (c = attacker) && is_attacking_movement_ok gs pr.1 pos true
        | .Empty => false)
  | .Empty =>
      (piece_iterator gs).any (fun pr =>
        match pr.2 with
        | .Occupied _ c => decide (c = attacker) && is_attacking_movement_ok gs pr.1 pos true
        | .Empty => false)

/-- The special-rule check of `is_legal` (the `could_be_legal` local of the
source): non-attacking pawn moves, en passant, and castling. Consulted only
when `is_attacking_movement_ok` fails. -/
def could_be_legal (gs : GameState) (from_pos to_pos : BoardPosition) : Bool :=
  let dx : Int := (to_pos.x : Int) - (from_pos.x : Int)
  let dy : Int := (to_pos.y : Int) - (from_pos.y : Int)
  match getSq gs from_pos with
  | .Occupied (.Pawn has_moved) _ =>
    let pawn_dir : Int := if gs.turn = Color.White then -1 else 1
    (match getSq gs to_pos with
     | .Occupied _ _ => false
     | .Empty =>
        if dx = 0 then
          decide (dy = pawn_dir) || (decide (dy = pawn_dir * 2) && !has_moved)
        else
          match gs.en_passant_square with
          | some pass_pos =>
              decide (dx.natAbs = 1) && decide (dy = pawn_dir) &&
              decide (to_pos.x = pass_pos.x) &&
              decide ((to_pos.y : Int) = (pass_pos.y : Int) + pawn_dir)
          | none => false)
  | .Occupied .King _ =>
    let is_left : Bool := decide (dx < 0)
    if dy ≠ 0 ∨ dx.natAbs ≠ 2 then false
    else if (gs.turn = Color.Black ∧
              ((is_left ∧ gs.black_can_castle_left) ∨ (¬is_left ∧ gs.black_can_castle_right))) ∨
            (gs.turn = Color.White ∧
              ((is_left ∧ gs.white_can_castle_left) ∨ (¬is_left ∧ gs.white_can_castle_right))) then
      let x : Nat := if is_left then 0 else 7
      if is_valid_rook_move gs from_pos ⟨x, from_pos.y⟩ then
        !(is_square_attacked gs from_pos gs.turn.not ||
          is_square_attacked gs ⟨((from_pos.x : Int) + Int.tdiv dx 2).toNat, from_pos.y⟩ gs.turn.not)
      else false
    else false
  | _ => false

/-- The `filter(King of color).next()` step of `is_legal` and
`is_checkmate`: the first square in iterator order holding a King of color
`c`. The source unwraps the result (panics when no such King exists). -/
def findKing (gs : GameState) (c : Color) : Option BoardPosition :=
  ((piece_iterator gs).find?
    (fun pr => pr.2 = BoardSquare.Occupied Piece.King c)).map (fun pr => pr.1)

/-- `do_move`. Mutation steps are modelled in the source's order
(`Int.tdiv` is Rust's truncating `i64` division; it is only applied to
`±2 / 2` here). Panic
paths of the source, made total here:
* castling asserts that the corner square holds the mover's rook; the model
  performs the rook transfer only in the asserted case and otherwise (where
  the source would panic) moves only the king;
* the en-passant branch unwraps the saved en-passant square; the model
  leaves the board unchanged by that capture step when it is `none` (the
  legality check only reaches this shape when it is set). -/
def do_move (gs : GameState) (from_pos to_pos : BoardPosition) : GameState :=
  let old_en_passant_square := gs.en_passant_square
  let dx : Int := (to_pos.x : Int) - (from_pos.x : Int)
  let dy : Int := (to_pos.y : Int) - (from_pos.y : Int)
  let b := gs.board_state
  match getSq gs from_pos with
  | .Occupied .King _ =>
    let b1 :=
      if dx.natAbs = 2 then
        let rook_x : Nat := if dx < 0 then 0 else 7
        if b ⟨rook_x, from_pos.y⟩ = BoardSquare.Occupied Piece.Rook gs.turn then
          setSq (setSq b ⟨((to_pos.x : Int) - Int.tdiv dx 2).toNat, to_pos.y⟩
                   (BoardSquare.Occupied Piece.Rook gs.turn))
            ⟨rook_x, from_pos.y⟩ BoardSquare.Empty
        else b
      else b
    let b2 := setSq b1 to_pos (b1 from_pos)
    let b3 := setSq b2 from_pos BoardSquare.Empty
    { gs with
      board_state := b3
      en_passant_square := none
      white_can_castle_left := if gs.turn = Color.White then false else gs.white_can_castle_left
      white_can_castle_right := if gs.turn = Color.White then false else gs.white_can_castle_right
      black_can_castle_left := if gs.turn = Color.Black then false else gs.black_can_castle_left
      black_can_castle_right := if gs.turn = Color.Black then false else gs.black_can_castle_right
      turn := gs.turn.not }
  | .Occupied (.Pawn _) _ =>
    let stage :=
      if dy.natAbs = 2 then (b, some to_pos)
      else if dx.natAbs = 1 ∧ b to_pos = BoardSquare.Empty then
        match old_en_passant_square with
        | some pass_pos => (setSq b pass_pos BoardSquare.Empty, (none : Option BoardPosition))
        | none => (b, none)
      else (b, none)
    let b2 := setSq stage.1 to_pos (BoardSquare.Occupied (Piece.Pawn true) gs.turn)
    let b3 := setSq b2 from_pos BoardSquare.Empty
    { gs with
      board_state := b3
      en_passant_square := stage.2
      turn := gs.turn.not }
  | .Occupied .Rook _ =>
    let back_rank : Nat := if gs.turn = Color.White then 7 else 0
    let hit_left : Bool := decide (from_pos.y = back_rank) && decide (from_pos.x = 0)
    let hit_right : Bool := decide (from_pos.y = back_rank) && decide (from_pos.x = 7)
    let b2 := setSq b to_pos (b from_pos)
    let b3 := setSq b2 from_pos BoardSquare.Empty
    { gs with
      board_state := b3
      en_passant_square := none
      white_can_castle_left :=
        if gs.turn = Color.White ∧ hit_left then false else gs.white_can_castle_left
      white_can_castle_right :=
        if gs.turn = Color.White ∧ hit_right then false else gs.white_can_castle_right
      black_can_castle_left :=
        if gs.turn = Color.Black ∧ hit_left then false else gs.black_can_castle_left
      black_can_castle_right :=
        if gs.turn = Color.Black ∧ hit_right then false else gs.black_can_castle_right
      turn := gs.turn.not }
  | _ =>
    let b2 := setSq b to_pos (b from_pos)
    let b3 := setSq b2 from_pos BoardSquare.Empty
    { gs with
      board_state := b3
      en_passant_square := none
      turn := gs.turn.not }

/-- `is_legal`. The source computes `could_be_legal` only when the
geometric check fails; combining the two with short-circuit conjunction
yields the same value. The final king lookup unwraps (panics) when the
moving side has no King; the model returns `false` there. -/
def is_legal (gs : GameState) (from_pos to_pos : BoardPosition) : Bool :=
  if !is_legal_start gs from_pos then false
  else if is_legal_start gs to_pos then false
  else if !is_attacking_movement_ok gs from_pos to_pos false &&
          !could_be_legal gs from_pos to_pos then false
  else
    let test_state := do_move gs from_pos to_pos
    match findKing test_state gs.turn with
    | some pos => !is_square_attacked test_state pos gs.turn.not
    | none => false

/-- `is_checkmate(attacker)`: the defender's King (first King of the
non-attacking color in iterator order; the source unwraps, panicking when
there is none — the model returns `false` there) is attacked and, with the
side to move temporarily set to the defending color, no piece of the
defending color has any legal move. -/
def is_checkmate (gs : GameState) (attacker : Color) : Bool :=
  match findKing gs attacker.not with
  | none => false
  | some pos =>
    if !is_square_attacked gs pos attacker then false
    else
      let gs' := { gs with turn := attacker.not }
      !((piece_iterator gs').any (fun pr =>
        match pr.2 with
        | .Occupied _ color =>
            !decide (color = attacker) &&
            allPositions.any (fun target_sq => is_legal gs' pr.1 target_sq)
        | .Empty => false))

/-! ## Wire protocol and session state machine (`src/net_chess.rs`) -/

/-- `enum Packet` from `src/net_chess.rs`. -/
inductive Packet where
  | Move (bp1 bp2 : BoardPosition)
  | AckMove
  | RejMove
deriving DecidableEq

/-- Error kinds of packet decoding: a short read (`read_exact` failing,
transport failure) versus `BadPacketError` (unrecognized tag byte). -/
inductive NetError where
  | StreamError
  | BadPacket
deriving DecidableEq

/-- `Networkable for BoardPosition`: two bytes, `.0` then `.1`. The source
asserts both coordinates are below 256 before casting to `u8`; bytes are
modelled as `Nat` and the round-trip theorems restrict coordinates to the
board range. -/
def serializeBoardPosition (p : BoardPosition) : List Nat :=
  [p.x, p.y]

/-- `Networkable for Packet` serialization: tag byte then payload. -/
def serializePacket : Packet → List Nat
  | .Move bp1 bp2 => 0 :: (serializeBoardPosition bp1 ++ serializeBoardPosition bp2)
  | .AckMove => [1]
  | .RejMove => [2]

/-- `BoardPosition::deserialize`: read two bytes; a short read is a stream
error (`none`). -/
def deserializeBoardPosition : List Nat → Option (BoardPosition × List Nat)
  | b0 :: b1 :: rest => some (⟨b0, b1⟩, rest)
  | _ => none

/-- `Packet::deserialize` on a byte stream modelled as a list: returns the
decode result together with the not-yet-consumed remainder of the stream.
An unrecognized tag byte yields `BadPacketError` after consuming only the
tag byte. (On a short read the remainder is returned empty; the source
leaves the buffer contents unspecified there.) -/
def deserializePacket (bytes : List Nat) : Except NetError Packet × List Nat :=
  match bytes with
  | [] => (Except.error NetError.StreamError, [])
  | t :: rest =>
    if t = 0 then
      match deserializeBoardPosition rest with
      | some (bp1, rest1) =>
        match deserializeBoardPosition rest1 with
        | some (bp2, rest2) => (Except.ok (Packet.Move bp1 bp2), rest2)
        | none => (Except.error NetError.StreamError, [])
      | none => (Except.error NetError.StreamError, [])
    else if t = 1 then (Except.ok Packet.AckMove, rest)
    else if t = 2 then (Except.ok Packet.RejMove, rest)
    else (Except.error NetError.BadPacket, rest)

/-- The three session states of `src/net_chess.rs` (`MyMove`, `AwaitAck`
carrying the proposed move, `OtherMove`). -/
inductive SessionState where
  | MyMove
  | AwaitAck (next_move : BoardPosition × BoardPosition)
  | OtherMove
deriving DecidableEq

/-- One iteration of the receive loop of `impl ChessState for OtherMove`:
given the local board and one received packet, produce the updated board,
the successor session state, and the packets sent in response. The source
sends `AckMove` before calling `do_move`; a rejected move sends `RejMove`
and stays in `OtherMove`; any other packet is discarded by the loop's
catch-all arm. -/
def otherMoveStep (gs : GameState) (pkt : Packet) :
    GameState × SessionState × List Packet :=
  match pkt with
  | .Move bp1 bp2 =>
    if is_legal gs bp1 bp2 then
      (do_move gs bp1 bp2, SessionState.MyMove, [Packet.AckMove])
    else
      (gs, SessionState.OtherMove, [Packet.RejMove])
  | _ => (gs, SessionState.OtherMove, [])

/-! ## Helper lemmas -/

theorem Color.not_ne (c : Color) : c.not ≠ c := by
  cases c <;> simp [Color.not]

theorem Color.not_not (c : Color) : c.not.not = c := by
  cases c <;> rfl

theorem Color.ne_not (c : Color) : c ≠ c.not := by
  cases c <;> simp [Color.not]

theorem setSq_eval (b : BoardPosition → BoardSquare) (pos q : BoardPosition)
    (sq : BoardSquare) : setSq b pos sq q = if q = pos then sq else b q := rfl

theorem mem_allPositions (p : BoardPosition) :
    p ∈ allPositions ↔ p.x < 8 ∧ p.y < 8 := by
  unfold allPositions
  simp only [List.mem_map, List.mem_range]
  constructor
  · rintro ⟨x, hx, rfl⟩
    constructor <;> simp <;> omega
  · rintro ⟨h1, h2⟩
    obtain ⟨x, y⟩ := p
    dsimp only at h1 h2
    refine ⟨x * 8 + y, by omega, ?_⟩
    simp only [BoardPosition.mk.injEq]
    omega

theorem allPositions_nodup : allPositions.Nodup := by
  unfold allPositions
  refine List.Nodup.map ?_ (List.nodup_range 64)
  intro a b hab
  simp only [BoardPosition.mk.injEq] at hab
  omega

theorem mem_piece_iterator (gs : GameState) (pr : BoardPosition × BoardSquare) :
    pr ∈ piece_iterator gs ↔
      pr.1 ∈ allPositions ∧ getSq gs pr.1 = pr.2 ∧ pr.2 ≠ BoardSquare.Empty := by
  unfold piece_iterator
  simp only [List.mem_filter, List.mem_map, decide_eq_true_eq]
  constructor
  · rintro ⟨⟨p, hp, rfl⟩, hne⟩
    exact ⟨hp, rfl, hne⟩
  · rintro ⟨hp, heq, hne⟩
    exact ⟨⟨pr.1, hp, by rw [heq]⟩, hne⟩

theorem find?_eq_some_of_unique {α : Type} (l : List α) (p : α → Bool) (a : α)
    (ha : a ∈ l) (hpa : p a = true) (huniq : ∀ b ∈ l, p b = true → b = a) :
    l.find? p = some a := by
  induction l with
  | nil => cases ha
  | cons x xs ih =>
    by_cases hx : p x = true
    · have hxa : x = a := huniq x (List.mem_cons_self x xs) hx
      rw [List.find?_cons_of_pos _ hx, hxa]
    · have hax : a ∈ xs := by
        rcases List.mem_cons.mp ha with h | h
        · exact absurd (h ▸ hpa) hx
        · exact h
      rw [List.find?_cons_of_neg _ (by simpa using hx)]
      exact ih hax (fun b hb hpb => huniq b (List.mem_cons_of_mem _ hb) hpb)

theorem findKing_eq_some (gs : GameState) (c : Color) (kp : BoardPosition)
    (h1 : kp.x < 8) (h2 : kp.y < 8)
    (hocc : getSq gs kp = BoardSquare.Occupied Piece.King c)
    (huniq : ∀ q : BoardPosition, q.x < 8 → q.y < 8 →
      getSq gs q = BoardSquare.Occupied Piece.King c → q = kp) :
    findKing gs c = some kp := by
  unfold findKing
  have hfind : (piece_iterator gs).find?
      (fun pr => pr.2 = BoardSquare.Occupied Piece.King c)
      = some (kp, BoardSquare.Occupied Piece.King c) := by
    apply find?_eq_some_of_unique
    · exact (mem_piece_iterator gs _).mpr
        ⟨(mem_allPositions kp).mpr ⟨h1, h2⟩, hocc, by simp⟩
    · simp
    · intro b hb hpb
      obtain ⟨hmem, hget, _⟩ := (mem_piece_iterator gs b).mp hb
      obtain ⟨hbx, hby⟩ := (mem_allPositions b.1).mp hmem
      simp only [decide_eq_true_eq] at hpb
      have hb1 : b.1 = kp := huniq b.1 hbx hby (by rw [hget, hpb])
      obtain ⟨b1, b2⟩ := b
      simp only at hb1 hpb
      rw [hb1, hpb]
  rw [hfind]
  rfl

theorem length_filter_eq_one_iff {α : Type} (l : List α) (p : α → Bool)
    (hnd : l.Nodup) :
    (l.filter p).length = 1 ↔
      ∃ a, a ∈ l ∧ p a = true ∧ ∀ b, b ∈ l → p b = true → b = a := by
  constructor
  · intro h
    obtain ⟨a, ha⟩ := List.length_eq_one.mp h
    have hmem : a ∈ l.filter p := by rw [ha]; exact List.mem_singleton.mpr rfl
    obtain ⟨hal, hpa⟩ := List.mem_filter.mp hmem
    refine ⟨a, hal, hpa, fun b hb hpb => ?_⟩
    have : b ∈ l.filter p := List.mem_filter.mpr ⟨hb, hpb⟩
    rw [ha] at this
    exact List.mem_singleton.mp this
  · rintro ⟨a, hal, hpa, huniq⟩
    have hnd' : (l.filter p).Nodup := hnd.filter p
    have hmem : a ∈ l.filter p := List.mem_filter.mpr ⟨hal, hpa⟩
    have hall : ∀ b ∈ l.filter p, b = a := fun b hb =>
      huniq b (List.mem_filter.mp hb).1 (List.mem_filter.mp hb).2
    have hsingle : l.filter p = [a] := by
      cases hfe : l.filter p with
      | nil => rw [hfe] at hmem; cases hmem
      | cons x xs =>
        have hx : x = a := hall x (by rw [hfe]; exact List.mem_cons_self x xs)
        cases xs with
        | nil => rw [hx]
        | cons y ys =>
          have hy : y = a := hall y (by rw [hfe]; simp)
          rw [hfe, hx, hy] at hnd'
          simp at hnd'
    rw [hsingle]
    rfl

/-- The number of squares holding a King of color `c` (what the
"exactly one King per color" board invariant counts). -/
def kingCount (gs : GameState) (c : Color) : Nat :=
  (allPositions.filter
    (fun p => getSq gs p = BoardSquare.Occupied Piece.King c)).length

theorem kingCount_eq_one_iff (gs : GameState) (c : Color) :
    kingCount gs c = 1 ↔
      ∃ p : BoardPosition, p.x < 8 ∧ p.y < 8 ∧
        getSq gs p = BoardSquare.Occupied Piece.King c ∧
        ∀ q : BoardPosition, q.x < 8 → q.y < 8 →
          getSq gs q = BoardSquare.Occupied Piece.King c → q = p := by
  unfold kingCount
  rw [length_filter_eq_one_iff _ _ allPositions_nodup]
  constructor
  · rintro ⟨a, hal, hpa, huniq⟩
    obtain ⟨hax, hay⟩ := (mem_allPositions a).mp hal
    simp only [decide_eq_true_eq] at hpa
    refine ⟨a, hax, hay, hpa, fun q hqx hqy hq => ?_⟩
    exact huniq q ((mem_allPositions q).mpr ⟨hqx, hqy⟩) (by simp [hq])
  · rintro ⟨a, hax, hay, hpa, huniq⟩
    refine ⟨a, (mem_allPositions a).mpr ⟨hax, hay⟩, by simp [hpa],
      fun b hb hpb => ?_⟩
    obtain ⟨hbx, hby⟩ := (mem_allPositions b).mp hb
    simp only [decide_eq_true_eq] at hpb
    exact huniq b hbx hby hpb

/-- Introduce `is_square_attacked` from an explicit attacking piece. -/
theorem attacked_intro (gs : GameState) (p target : BoardPosition)
    (pc : Piece) (c : Color)
    (hpx : p.x < 8) (hpy : p.y < 8)
    (hocc : getSq gs p = BoardSquare.Occupied pc c)
    (hmove : is_attacking_movement_ok gs p target true = true)
    (hguard : ∀ pc2, getSq gs target ≠ BoardSquare.Occupied pc2 c) :
    is_square_attacked gs target c = true := by
  have hany : (piece_iterator gs).any (fun pr =>
      match pr.2 with
      | .Occupied _ c2 => decide (c2 = c) && is_attacking_movement_ok gs pr.1 target true
      | .Empty => false) = true := by
    rw [List.any_eq_true]
    refine ⟨(p, BoardSquare.Occupied pc c), ?_, ?_⟩
    · exact (mem_piece_iterator gs _).mpr
        ⟨(mem_allPositions p).mpr ⟨hpx, hpy⟩, hocc, by simp⟩
    · simp [hmove]
  unfold is_square_attacked
  cases htg : getSq gs target with
  | Empty => exact hany
  | Occupied pc2 c2 =>
    have : c2 ≠ c := fun h => hguard pc2 (h ▸ htg)
    simp only [this, if_false]
    exact hany

/-- Eliminate `is_square_attacked` to an explicit attacking piece. -/
theorem attacked_elim (gs : GameState) (target : BoardPosition) (attacker : Color)
    (h : is_square_attacked gs target attacker = true) :
    ∃ (p : BoardPosition) (pc : Piece), p.x < 8 ∧ p.y < 8 ∧
      getSq gs p = BoardSquare.Occupied pc attacker ∧
      is_attacking_movement_ok gs p target true = true := by
  have hany : (piece_iterator gs).any (fun pr =>
      match pr.2 with
      | .Occupied _ c2 => decide (c2 = attacker) && is_attacking_movement_ok gs pr.1 target true
      | .Empty => false) = true := by
    unfold is_square_attacked at h
    cases htg : getSq gs target with
    | Empty => rw [htg] at h; exact h
    | Occupied pc2 c2 =>
      rw [htg] at h
      by_cases hc : c2 = attacker
      · simp [hc] at h
      · simpa [hc] using h
  rw [List.any_eq_true] at hany
  obtain ⟨pr, hmem, hpr⟩ := hany
  obtain ⟨hal, hget, hne⟩ := (mem_piece_iterator gs pr).mp hmem
  obtain ⟨hx, hy⟩ := (mem_allPositions pr.1).mp hal
  cases hsq : pr.2 with
  | Empty => rw [hsq] at hpr; simp at hpr
  | Occupied pc2 c2 =>
    rw [hsq] at hpr
    simp only [Bool.and_eq_true, decide_eq_true_eq] at hpr
    exact ⟨pr.1, pc2, hx, hy, by rw [hget, hsq, hpr.1], hpr.2⟩

/-- When a square is attacked it is not occupied by a piece of the
attacker's color (the assertion of `is_square_attacked`). -/
theorem attacked_guard (gs : GameState) (target : BoardPosition) (attacker : Color)
    (h : is_square_attacked gs target attacker = true) :
    ∀ pc, getSq gs target ≠ BoardSquare.Occupied pc attacker := by
  intro pc hocc
  unfold is_square_attacked at h
  rw [hocc] at h
  simp at h

/-- Geometric movement with real occupancy implies movement in
"pretend occupied" mode. -/
theorem movement_pretend_mono (gs : GameState) (f t : BoardPosition)
    (h : is_attacking_movement_ok gs f t false = true) :
    is_attacking_movement_ok gs f t true = true := by
  unfold is_attacking_movement_ok at h ⊢
  cases hf : getSq gs f with
  | Empty => rw [hf] at h; exact h
  | Occupied piece color =>
    rw [hf] at h
    cases piece <;> simp_all

/-- Unfold a successful legality check into its four stages. -/
theorem is_legal_elim (gs : GameState) (f t : BoardPosition)
    (h : is_legal gs f t = true) :
    is_legal_start gs f = true ∧ is_legal_start gs t = false ∧
    (is_attacking_movement_ok gs f t false = true ∨ could_be_legal gs f t = true) ∧
    ∃ kp, findKing (do_move gs f t) gs.turn = some kp ∧
      is_square_attacked (do_move gs f t) kp gs.turn.not = false := by
  unfold is_legal at h
  cases h1 : is_legal_start gs f with
  | false => rw [h1] at h; simp at h
  | true =>
    rw [h1] at h
    cases h2 : is_legal_start gs t with
    | true => rw [h2] at h; simp at h
    | false =>
      rw [h2] at h
      rw [if_neg (by simp), if_neg (by simp)] at h
      cases h3 : (!is_attacking_movement_ok gs f t false &&
          !could_be_legal gs f t) with
      | true => rw [h3] at h; simp at h
      | false =>
        rw [h3] at h
        rw [if_neg (by simp)] at h
        refine ⟨rfl, rfl, ?_, ?_⟩
        · cases h4 : is_attacking_movement_ok gs f t false with
          | true => exact Or.inl rfl
          | false =>
            rw [h4] at h3
            simp only [Bool.not_false, Bool.true_and] at h3
            exact Or.inr (by simpa using h3)
        · have h' : (match findKing (do_move gs f t) gs.turn with
              | some pos => !is_square_attacked (do_move gs f t) pos gs.turn.not
              | none => false) = true := h
          cases hk : findKing (do_move gs f t) gs.turn with
          | none => rw [hk] at h'; simp at h'
          | some kp =>
            rw [hk] at h'
            have h'' : (!is_square_attacked (do_move gs f t) kp gs.turn.not)
                = true := h'
            exact ⟨kp, rfl, by simpa using h''⟩

/-- Assemble a successful legality check from its four stages. -/
theorem is_legal_intro (gs : GameState) (f t : BoardPosition) (kp : BoardPosition)
    (h1 : is_legal_start gs f = true) (h2 : is_legal_start gs t = false)
    (h3 : is_attacking_movement_ok gs f t false = true ∨ could_be_legal gs f t = true)
    (h4 : findKing (do_move gs f t) gs.turn = some kp)
    (h5 : is_square_attacked (do_move gs f t) kp gs.turn.not = false) :
    is_legal gs f t = true := by
  unfold is_legal
  rw [h1, h2]
  rw [if_neg (by simp), if_neg (by simp)]
  have h3' : (!is_attacking_movement_ok gs f t false &&
      !could_be_legal gs f t) = false := by
    rcases h3 with h | h <;> simp [h]
  rw [h3', if_neg (by simp)]
  show (match findKing (do_move gs f t) gs.turn with
      | some pos => !is_square_attacked (do_move gs f t) pos gs.turn.not
      | none => false) = true
  rw [h4]
  simp [h5]

/-- `is_valid_rook_move` as a statement about the strictly-intermediate
squares of a horizontal or vertical segment. -/
theorem is_valid_rook_move_iff (gs : GameState) (p q : BoardPosition) :
    is_valid_rook_move gs p q = true ↔
      ((p.x = q.x ∧ ∀ i : Nat, min p.y q.y < i → i < max p.y q.y →
          getSq gs ⟨p.x, i⟩ = BoardSquare.Empty) ∨
       (p.y = q.y ∧ ∀ i : Nat, min p.x q.x < i → i < max p.x q.x →
          getSq gs ⟨i, p.y⟩ = BoardSquare.Empty)) := by
  unfold is_valid_rook_move
  by_cases hx : (q.x : Int) - (p.x : Int) = 0
  · by_cases hy : (q.y : Int) - (p.y : Int) = 0
    · have hpx : p.x = q.x := by omega
      rw [if_neg (fun hc => hc.1 hx), if_pos hx, List.all_eq_true]
      constructor
      · intro _
        exact Or.inl ⟨hpx, fun i h1 h2 => by omega⟩
      · intro _ i hi
        exfalso
        rw [List.mem_range'_1] at hi
        omega
    · have hpx : p.x = q.x := by omega
      rw [if_neg (fun hc => hc.1 hx), if_pos hx, List.all_eq_true]
      constructor
      · intro h
        refine Or.inl ⟨hpx, fun i h1 h2 => ?_⟩
        have := h i (by rw [List.mem_range'_1]; omega)
        simpa using this
      · intro h i hi
        rw [List.mem_range'_1] at hi
        rcases h with ⟨_, h⟩ | ⟨hpy, _⟩
        · simpa using h i (by omega) (by omega)
        · exfalso
          omega
  · by_cases hy : (q.y : Int) - (p.y : Int) = 0
    · have hpy : p.y = q.y := by omega
      rw [if_neg (fun hc => hc.2 hy), if_neg hx, List.all_eq_true]
      constructor
      · intro h
        refine Or.inr ⟨hpy, fun i h1 h2 => ?_⟩
        have := h i (by rw [List.mem_range'_1]; omega)
        simpa using this
      · intro h i hi
        rw [List.mem_range'_1] at hi
        rcases h with ⟨hpx, _⟩ | ⟨_, h⟩
        · exfalso
          omega
        · simpa using h i (by omega) (by omega)
    · rw [if_pos ⟨hx, hy⟩]
      simp only [Bool.false_eq_true, false_iff]
      rintro (⟨hpx, _⟩ | ⟨hpy, _⟩) <;> omega

/-- `is_valid_bishop_move` as a statement about the strictly-intermediate
squares of the diagonal walk. -/
theorem is_valid_bishop_move_iff (gs : GameState) (p q : BoardPosition) :
    is_valid_bishop_move gs p q = true ↔
      ((q.x : Int) - (p.x : Int)).natAbs = ((q.y : Int) - (p.y : Int)).natAbs ∧
      ∀ k : Nat, k < ((q.x : Int) - (p.x : Int)).natAbs - 1 →
        getSq gs ⟨((p.x : Int) +
            (if 0 < (q.x : Int) - (p.x : Int) then 1 else -1) * ((k : Int) + 1)).toNat,
          ((p.y : Int) +
            (if 0 < (q.y : Int) - (p.y : Int) then 1 else -1) * ((k : Int) + 1)).toNat⟩
          = BoardSquare.Empty := by
  unfold is_valid_bishop_move
  by_cases habs : ((q.x : Int) - (p.x : Int)).natAbs = ((q.y : Int) - (p.y : Int)).natAbs
  · rw [if_neg (fun hc => hc habs), List.all_eq_true]
    constructor
    · intro h
      refine ⟨habs, fun k hk => ?_⟩
      simpa using h k (List.mem_range.mpr hk)
    · rintro ⟨_, h⟩ k hk
      simpa using h k (List.mem_range.mp hk)
  · rw [if_pos habs]
    simp only [Bool.false_eq_true, false_iff]
    rintro ⟨h, _⟩
    exact habs h

/-- A valid bishop move is preserved when the board changes only on the
target's rank: the strictly-intermediate squares of a diagonal all lie on
other ranks. -/
theorem bishop_move_persist (gs gs' : GameState) (p t : BoardPosition)
    (hpre : is_valid_bishop_move gs p t = true)
    (hsame : ∀ q : BoardPosition, q.y ≠ t.y → getSq gs' q = getSq gs q) :
    is_valid_bishop_move gs' p t = true := by
  rw [is_valid_bishop_move_iff] at hpre ⊢
  obtain ⟨habs, h⟩ := hpre
  refine ⟨habs, fun k hk => ?_⟩
  rw [hsame _ ?ne]
  · exact h k hk
  case ne =>
    dsimp only
    split_ifs with hdy <;> omega

/-- A valid rook move is preserved when the board changes only on the
target's rank, provided the strictly-intermediate squares on that rank are
still empty afterwards. -/
theorem rook_move_persist (gs gs' : GameState) (p t : BoardPosition)
    (hpre : is_valid_rook_move gs p t = true)
    (hsame : ∀ q : BoardPosition, q.y ≠ t.y → getSq gs' q = getSq gs q)
    (hrank : p.y = t.y → ∀ i : Nat, min p.x t.x < i → i < max p.x t.x →
        getSq gs' ⟨i, t.y⟩ = BoardSquare.Empty) :
    is_valid_rook_move gs' p t = true := by
  rw [is_valid_rook_move_iff] at hpre ⊢
  rcases hpre with ⟨hpx, h⟩ | ⟨hpy, h⟩
  · refine Or.inl ⟨hpx, fun i h1 h2 => ?_⟩
    rw [hsame _ ?ne]
    · exact h i h1 h2
    case ne =>
      dsimp only
      omega
  · refine Or.inr ⟨hpy, fun i h1 h2 => ?_⟩
    have hr := hrank hpy i (by omega) (by omega)
    rw [hpy]
    exact hr

/-- A geometric attack (in "pretend occupied" mode) on `t` is preserved
when the attacking piece is unchanged, the board changes only on `t`'s
rank, and the strictly-intermediate squares between attacker and target on
that rank stay empty. -/
theorem movement_persist (gs gs' : GameState) (p t : BoardPosition)
    (pc : Piece) (c : Color)
    (hocc : getSq gs p = BoardSquare.Occupied pc c)
    (hocc' : getSq gs' p = BoardSquare.Occupied pc c)
    (hpre : is_attacking_movement_ok gs p t true = true)
    (hsame : ∀ q : BoardPosition, q.y ≠ t.y → getSq gs' q = getSq gs q)
    (hrank : is_valid_rook_move gs p t = true → p.y = t.y →
      ∀ i : Nat, min p.x t.x < i → i < max p.x t.x →
        getSq gs' ⟨i, t.y⟩ = BoardSquare.Empty) :
    is_attacking_movement_ok gs' p t true = true := by
  unfold is_attacking_movement_ok at hpre ⊢
  rw [hocc] at hpre
  rw [hocc']
  cases pc with
  | Knight => exact hpre
  | King => exact hpre
  | Rook => exact rook_move_persist gs gs' p t hpre hsame (hrank hpre)
  | Bishop => exact bishop_move_persist gs gs' p t hpre hsame
  | Queen =>
    have hpre' : is_valid_bishop_move gs p t = true ∨
        is_valid_rook_move gs p t = true := by
      simpa using hpre
    rcases hpre' with h | h
    · simp [bishop_move_persist gs gs' p t h hsame]
    · simp [rook_move_persist gs gs' p t h hsame (hrank h)]
  | Pawn hm =>
    simp only [Bool.true_or, Bool.true_and] at hpre ⊢
    exact hpre

/-! ## Concrete boards for witnesses and counterexamples -/

/-- Build a board function from explicit rows, rank-major, mirroring how
`setup_set_game` fills `board_state` row by row; absent entries are empty. -/
def boardOfRows (rows : List (List BoardSquare)) : BoardPosition → BoardSquare :=
  fun p => (rows.getD p.y []).getD p.x BoardSquare.Empty

def sqE : BoardSquare := BoardSquare.Empty
def wPawn : BoardSquare := BoardSquare.Occupied (Piece.Pawn false) Color.White
def wRook : BoardSquare := BoardSquare.Occupied Piece.Rook Color.White
def wKing : BoardSquare := BoardSquare.Occupied Piece.King Color.White
def bPawn : BoardSquare := BoardSquare.Occupied (Piece.Pawn false) Color.Black
def bRook : BoardSquare := BoardSquare.Occupied Piece.Rook Color.Black
def bKing : BoardSquare := BoardSquare.Occupied Piece.King Color.Black

/-- White rook on e4 pinned against the white king on e1 by the black rook
on e8; black king on h8. White to move. -/
def gsC1 : GameState :=
  { board_state := boardOfRows
      [[sqE, sqE, sqE, sqE, bRook, sqE, sqE, bKing],
       [], [], [],
       [sqE, sqE, sqE, sqE, wRook, sqE, sqE, sqE],
       [], [],
       [sqE, sqE, sqE, sqE, wKing, sqE, sqE, sqE]]
    turn := Color.White
    black_can_castle_left := false
    white_can_castle_left := false
    black_can_castle_right := false
    white_can_castle_right := false
    en_passant_square := none }

/-- White pawn on e2 with a black pawn on e3 (the square a double advance
jumps over); kings on a8 and e1. White to move. -/
def gsC2 : GameState :=
  { board_state := boardOfRows
      [[bKing, sqE, sqE, sqE, sqE, sqE, sqE, sqE],
       [], [], [], [],
       [sqE, sqE, sqE, sqE, bPawn, sqE, sqE, sqE],
       [sqE, sqE, sqE, sqE, wPawn, sqE, sqE, sqE],
       [sqE, sqE, sqE, sqE, wKing, sqE, sqE, sqE]]
    turn := Color.White
    black_can_castle_left := false
    white_can_castle_left := false
    black_can_castle_right := false
    white_can_castle_right := false
    en_passant_square := none }

/-- The mate-in-corner position of `tests::test_checkmate`
(`"R...k...R.......K...."`: white rooks a8/a7, black king e8, white king
a6), but with the side to move set to White instead of Black. -/
def gsC4 : GameState :=
  { board_state := boardOfRows
      [[wRook, sqE, sqE, sqE, bKing, sqE, sqE, sqE],
       [wRook, sqE, sqE, sqE, sqE, sqE, sqE, sqE],
       [wKing, sqE, sqE, sqE, sqE, sqE, sqE, sqE]]
    turn := Color.White
    black_can_castle_left := false
    white_can_castle_left := false
    black_can_castle_right := false
    white_can_castle_right := false
    en_passant_square := none }

/-- The same mate-in-corner position with the original side to move
(Black), for comparison. -/
def gsC4orig : GameState :=
  { gsC4 with turn := Color.Black }

/-- A board with one king per color where the black king stands en prise
to the white rook on b7. White to move. -/
def gsC6 : GameState :=
  { board_state := boardOfRows
      [[sqE, bKing, sqE, sqE, sqE, sqE, sqE, sqE],
       [sqE, wRook, sqE, sqE, sqE, sqE, sqE, sqE],
       [], [], [], [], [],
       [wKing, sqE, sqE, sqE, sqE, sqE, sqE, sqE]]
    turn := Color.White
    black_can_castle_left := false
    white_can_castle_left := false
    black_can_castle_right := false
    white_can_castle_right := false
    en_passant_square := none }

/-- A quiet board (kings on a1/h8, white rook on d5) used for the session
state machine witness. White to move. -/
def gsC9 : GameState :=
  { board_state := boardOfRows
      [[sqE, sqE, sqE, sqE, sqE, sqE, sqE, bKing],
       [], [],
       [sqE, sqE, sqE, wRook, sqE, sqE, sqE, sqE],
       [], [], [],
       [wKing, sqE, sqE, sqE, sqE, sqE, sqE, sqE]]
    turn := Color.White
    black_can_castle_left := false
    white_can_castle_left := false
    black_can_castle_right := false
    white_can_castle_right := false
    en_passant_square := none }

/-- A white pawn on c7 about to advance to Black's back rank; kings on
e1/h8. White to move. -/
def gsC10 : GameState :=
  { board_state := boardOfRows
      [[sqE, sqE, sqE, sqE, sqE, sqE, sqE, bKing],
       [sqE, sqE, wPawn, sqE, sqE, sqE, sqE, sqE],
       [], [], [], [], [],
       [sqE, sqE, sqE, sqE, wKing, sqE, sqE, sqE]]
    turn := Color.White
    black_can_castle_left := false
    white_can_castle_left := false
    black_can_castle_right := false
    white_can_castle_right := false
    en_passant_square := none }

/-! ## Claim theorems -/

/-- C1: for every board and move that passes the start-square, occupancy
and movement checks, `is_legal` returns `false` whenever simulating the
move leaves the moving side's King (as located by the engine's own lookup)
on a square attacked by the opponent. -/
theorem is_legal_rejects_self_check (gs : GameState) (f t kp : BoardPosition)
    (hstart : is_legal_start gs f = true)
    (hocc : is_legal_start gs t = false)
    (hgeom : is_attacking_movement_ok gs f t false = true ∨
      could_be_legal gs f t = true)
    (hk : findKing (do_move gs f t) gs.turn = some kp)
    (ha : is_square_attacked (do_move gs f t) kp gs.turn.not = true) :
    is_legal gs f t = false := by
  cases hl : is_legal gs f t with
  | false => rfl
  | true =>
    exfalso
    obtain ⟨-, -, -, kp2, hk2, ha2⟩ := is_legal_elim gs f t hl
    rw [hk] at hk2
    injection hk2 with hkk
    rw [hkk] at ha
    rw [ha] at ha2
    cases ha2

/-- C1 witness: moving the pinned rook e4–a4 on `gsC1` passes the
geometry and occupancy stages but is rejected by the self-check rule. -/
theorem is_legal_rejects_self_check_witness :
    is_legal_start gsC1 ⟨4, 4⟩ = true ∧
    is_legal_start gsC1 ⟨0, 4⟩ = false ∧
    is_attacking_movement_ok gsC1 ⟨4, 4⟩ ⟨0, 4⟩ false = true ∧
    findKing (do_move gsC1 ⟨4, 4⟩ ⟨0, 4⟩) gsC1.turn = some ⟨4, 7⟩ ∧
    is_square_attacked (do_move gsC1 ⟨4, 4⟩ ⟨0, 4⟩) ⟨4, 7⟩ gsC1.turn.not = true ∧
    is_legal gsC1 ⟨4, 4⟩ ⟨0, 4⟩ = false :=
  ⟨by decide, by decide, by decide, by decide, by decide,
    is_legal_rejects_self_check gsC1 ⟨4, 4⟩ ⟨0, 4⟩ ⟨4, 7⟩ (by decide) (by decide)
      (Or.inl (by decide)) (by decide) (by decide)⟩

/-- C2: on `gsC2` the square e3 jumped over by the double advance e2–e4 is
occupied, yet `is_legal` accepts the move: the engine never checks the
square a double pawn advance passes over, contradicting the specified
"two empty squares" rule. -/
theorem pawn_double_advance_ignores_blocker :
    getSq gsC2 ⟨4, 6⟩ = BoardSquare.Occupied (Piece.Pawn false) Color.White ∧
    gsC2.turn = Color.White ∧
    getSq gsC2 ⟨4, 5⟩ ≠ BoardSquare.Empty ∧
    getSq gsC2 ⟨4, 4⟩ = BoardSquare.Empty ∧
    is_legal gsC2 ⟨4, 6⟩ ⟨4, 4⟩ = true := by decide

/-- C10: any move of a pawn leaves a moved pawn of the side to move on the
destination square — including on the opponent's back rank; the engine
never converts a pawn into another piece. -/
theorem pawn_never_promotes (gs : GameState) (f t : BoardPosition)
    (hm : Bool) (c : Color)
    (hocc : getSq gs f = BoardSquare.Occupied (Piece.Pawn hm) c)
    (hne : f ≠ t) :
    getSq (do_move gs f t) t
      = BoardSquare.Occupied (Piece.Pawn true) gs.turn := by
  unfold do_move
  rw [hocc]
  simp [getSq, setSq, Ne.symm hne]

/-- C10 witness: the white pawn advancing c7–c8 onto Black's back rank
stays a pawn of the mover's color with its has-moved flag set. -/
theorem pawn_never_promotes_witness :
    getSq gsC10 ⟨2, 1⟩ = BoardSquare.Occupied (Piece.Pawn false) Color.White ∧
    getSq (do_move gsC10 ⟨2, 1⟩ ⟨2, 0⟩) ⟨2, 0⟩
      = BoardSquare.Occupied (Piece.Pawn true) Color.White :=
  ⟨by decide,
    pawn_never_promotes gsC10 ⟨2, 1⟩ ⟨2, 0⟩ false Color.White (by decide)
      (by decide)⟩

/-- C4 counterexample: on the mate-in-corner board with White (the wrong
side) to move, the "is Black checkmated" query — `is_checkmate` with the
attacker argument `White` — still returns `true`, not `false`: the escape
enumeration overwrites the side to move with the defending color instead
of respecting the board's actual turn. -/
theorem is_checkmate_ignores_turn_cex :
    gsC4.turn = Color.White ∧
    getSq gsC4 ⟨4, 0⟩ = BoardSquare.Occupied Piece.King Color.Black ∧
    is_checkmate gsC4 Color.White = true := by decide

/-- C4 amended: with White to move on the mate-in-corner board, the query
the repository's test actually performs — `is_checkmated()`, i.e.
`is_checkmate` with attacker `!turn = Black`, asking whether White is
checkmated — returns `false`; the "is Black checkmated" query (attacker
`White`) returns `true` regardless of which side the board says is to
move, because `is_checkmate` sets the side to move to the defending color
for its escape enumeration. -/
theorem mate_in_corner_wrong_turn :
    is_checkmate gsC4 gsC4.turn.not = false ∧
    is_checkmate gsC4 Color.White = true ∧
    is_checkmate gsC4orig Color.White = true := by decide

/-- C6 counterexample: on `gsC6` — exactly one King per color, with the
black king standing en prise — `is_legal` approves the white rook's
capture of the black king (the post-move self-check only inspects the
mover's own King), and `do_move` then removes it: the board no longer
contains a black King. -/
theorem is_legal_allows_king_capture_cex :
    kingCount gsC6 Color.White = 1 ∧
    kingCount gsC6 Color.Black = 1 ∧
    is_legal gsC6 ⟨1, 1⟩ ⟨1, 0⟩ = true ∧
    kingCount (do_move gsC6 ⟨1, 1⟩ ⟨1, 0⟩) Color.Black = 0 := by decide

/-- C7: decoding the bytes produced by encoding any packet yields that
packet back and consumes exactly its bytes (board coordinates, as in the
claim, are in the 0–7 range; the source asserts they fit a byte). -/
theorem packet_round_trip (p : Packet)
    (hok : ∀ bp1 bp2, p = Packet.Move bp1 bp2 →
      bp1.x < 8 ∧ bp1.y < 8 ∧ bp2.x < 8 ∧ bp2.y < 8) :
    deserializePacket (serializePacket p) = (Except.ok p, []) := by
  cases p with
  | Move bp1 bp2 => rfl
  | AckMove => rfl
  | RejMove => rfl

/-- C7 witness: round trip of a concrete `Move` packet (coordinates 0–7)
and of the two payload-free packets. -/
theorem packet_round_trip_witness :
    deserializePacket (serializePacket (Packet.Move ⟨1, 2⟩ ⟨3, 4⟩))
      = (Except.ok (Packet.Move ⟨1, 2⟩ ⟨3, 4⟩), []) ∧
    deserializePacket (serializePacket Packet.AckMove)
      = (Except.ok Packet.AckMove, []) ∧
    deserializePacket (serializePacket Packet.RejMove)
      = (Except.ok Packet.RejMove, []) :=
  ⟨packet_round_trip (Packet.Move ⟨1, 2⟩ ⟨3, 4⟩)
      (fun bp1 bp2 h => by cases h; exact ⟨by decide, by decide, by decide, by decide⟩),
    packet_round_trip Packet.AckMove (fun bp1 bp2 h => by cases h),
    packet_round_trip Packet.RejMove (fun bp1 bp2 h => by cases h)⟩

/-- C8: any tag byte other than 0, 1 or 2 makes `Packet` deserialization
return the protocol-decode error (`BadPacketError`), leaving the entire
payload after the tag byte unconsumed. -/
theorem packet_decode_bad_tag (t : Nat) (payload : List Nat)
    (h0 : t ≠ 0) (h1 : t ≠ 1) (h2 : t ≠ 2) :
    deserializePacket (t :: payload)
      = (Except.error NetError.BadPacket, payload) := by
  show (if t = 0 then
      match deserializeBoardPosition payload with
      | some (bp1, rest1) =>
        match deserializeBoardPosition rest1 with
        | some (bp2, rest2) => (Except.ok (Packet.Move bp1 bp2), rest2)
        | none => (Except.error NetError.StreamError, [])
      | none => (Except.error NetError.StreamError, [])
    else if t = 1 then (Except.ok Packet.AckMove, payload)
    else if t = 2 then (Except.ok Packet.RejMove, payload)
    else (Except.error NetError.BadPacket, payload))
    = (Except.error NetError.BadPacket, payload)
  rw [if_neg h0, if_neg h1, if_neg h2]

/-- C8 witness: tag byte 7 is rejected without consuming the payload. -/
theorem packet_decode_bad_tag_witness :
    deserializePacket (7 :: [3, 3, 4, 4])
      = (Except.error NetError.BadPacket, [3, 3, 4, 4]) :=
  packet_decode_bad_tag 7 [3, 3, 4, 4] (by decide) (by decide) (by decide)

/-- C9: in state `OtherMove`, a received `Move` packet is checked with
`is_legal` against the local board; a legal move is applied locally,
answered with `AckMove`, and moves the machine to `MyMove`; an illegal
move leaves the board unchanged, answers `RejMove`, and stays in
`OtherMove`; any other packet is discarded (nothing sent, nothing
changed). -/
theorem other_move_step_spec (gs : GameState) (bp1 bp2 : BoardPosition) :
    (is_legal gs bp1 bp2 = true →
      otherMoveStep gs (Packet.Move bp1 bp2)
        = (do_move gs bp1 bp2, SessionState.MyMove, [Packet.AckMove])) ∧
    (is_legal gs bp1 bp2 = false →
      otherMoveStep gs (Packet.Move bp1 bp2)
        = (gs, SessionState.OtherMove, [Packet.RejMove])) ∧
    otherMoveStep gs Packet.AckMove = (gs, SessionState.OtherMove, []) ∧
    otherMoveStep gs Packet.RejMove = (gs, SessionState.OtherMove, []) := by
  refine ⟨fun h => ?_, fun h => ?_, rfl, rfl⟩
  · show (if is_legal gs bp1 bp2 = true then
        (do_move gs bp1 bp2, SessionState.MyMove, [Packet.AckMove])
      else (gs, SessionState.OtherMove, [Packet.RejMove]))
      = (do_move gs bp1 bp2, SessionState.MyMove, [Packet.AckMove])
    rw [if_pos h]
  · show (if is_legal gs bp1 bp2 = true then
        (do_move gs bp1 bp2, SessionState.MyMove, [Packet.AckMove])
      else (gs, SessionState.OtherMove, [Packet.RejMove]))
      = (gs, SessionState.OtherMove, [Packet.RejMove])
    rw [if_neg (by simp [h])]

/-- C9 witness: on `gsC9` the legal rook move d5–d2 is applied and
acknowledged, an illegal move from an empty square is rejected with the
board unchanged, and an `AckMove` packet is discarded. -/
theorem other_move_step_spec_witness :
    otherMoveStep gsC9 (Packet.Move ⟨3, 3⟩ ⟨3, 5⟩)
      = (do_move gsC9 ⟨3, 3⟩ ⟨3, 5⟩, SessionState.MyMove, [Packet.AckMove]) ∧
    otherMoveStep gsC9 (Packet.Move ⟨2, 2⟩ ⟨2, 3⟩)
      = (gsC9, SessionState.OtherMove, [Packet.RejMove]) ∧
    otherMoveStep gsC9 Packet.AckMove = (gsC9, SessionState.OtherMove, []) :=
  ⟨(other_move_step_spec gsC9 ⟨3, 3⟩ ⟨3, 5⟩).1 (by decide),
    (other_move_step_spec gsC9 ⟨2, 2⟩ ⟨2, 3⟩).2.1 (by decide),
    (other_move_step_spec gsC9 ⟨0, 0⟩ ⟨0, 0⟩).2.2.1⟩

/-- C5: the en-passant window. After a pawn's double advance from `f` to
`S`: (a) the en-passant target is exactly `S`; (b) an enemy pawn on `p`
adjacent to `S` may immediately capture en passant onto `t` (the square
behind `S`), provided the capture passes the engine's self-check; (c) any
following move that is not itself a pawn double advance clears the
en-passant target; (cʹ) after any single intervening move the same pawn
can no longer play the capture (it is no longer that side's turn); and
(d) on any board without an en-passant target, a pawn's diagonal move onto
an empty square is rejected. -/
theorem en_passant_window (gs : GameState) (f S p t a b : BoardPosition)
    (gs2 : GameState) (hm : Bool) (cpb : Color)
    (hpawn : getSq gs f = BoardSquare.Occupied (Piece.Pawn hm) cpb)
    (hdbl : ((S.y : Int) - (f.y : Int)).natAbs = 2) :
    (do_move gs f S).en_passant_square = some S ∧
    (∀ hm1 : Bool,
      getSq (do_move gs f S) p
          = BoardSquare.Occupied (Piece.Pawn hm1) (do_move gs f S).turn →
      p.y = S.y → t.x = S.x →
      (t.y : Int) = (S.y : Int) +
        (if (do_move gs f S).turn = Color.White then -1 else 1) →
      ((t.x : Int) - (p.x : Int)).natAbs = 1 →
      getSq (do_move gs f S) t = BoardSquare.Empty →
      (∃ kp, findKing (do_move (do_move gs f S) p t) (do_move gs f S).turn
            = some kp ∧
        is_square_attacked (do_move (do_move gs f S) p t) kp
            (do_move gs f S).turn.not = false) →
      is_legal (do_move gs f S) p t = true) ∧
    ((∀ (hmx : Bool) (cx : Color),
        getSq (do_move gs f S) a = BoardSquare.Occupied (Piece.Pawn hmx) cx →
        ((b.y : Int) - (a.y : Int)).natAbs ≠ 2) →
      (do_move (do_move gs f S) a b).en_passant_square = none) ∧
    (∀ hm2 : Bool,
      getSq (do_move (do_move gs f S) a b) p
          = BoardSquare.Occupied (Piece.Pawn hm2) (do_move gs f S).turn →
      is_legal (do_move (do_move gs f S) a b) p t = false) ∧
    (∀ (hm3 : Bool) (c3 : Color),
      gs2.en_passant_square = none →
      getSq gs2 p = BoardSquare.Occupied (Piece.Pawn hm3) c3 →
      getSq gs2 t = BoardSquare.Empty →
      t.x ≠ p.x →
      is_legal gs2 p t = false) := by
  have ha : (do_move gs f S).en_passant_square = some S := by
    unfold do_move
    rw [hpawn]
    simp [hdbl]
  obtain ⟨gs1, hg⟩ : ∃ gs1, gs1 = do_move gs f S := ⟨_, rfl⟩
  rw [← hg] at ha ⊢
  refine ⟨ha, ?_, ?_, ?_, ?_⟩
  · -- (b) the immediate en-passant capture is accepted
    intro hm1 hpocc hpy htx hty hdx ht hsafe
    obtain ⟨kp, hkp, hatk⟩ := hsafe
    have hstart : is_legal_start gs1 p = true := by
      unfold is_legal_start
      rw [hpocc]
      simp
    have hstartt : is_legal_start gs1 t = false := by
      unfold is_legal_start
      rw [ht]
    have hspec : could_be_legal gs1 p t = true := by
      unfold could_be_legal
      rw [hpocc, ht, ha]
      dsimp only
      rw [if_neg (by omega : ¬((t.x : Int) - (p.x : Int) = 0))]
      have hdy : (t.y : Int) - (p.y : Int) =
          (if gs1.turn = Color.White then -1 else 1) := by
        rw [hty, hpy]
        ring
      simp [hdx, hdy, htx]
      exact ⟨by omega, hty⟩
    exact is_legal_intro gs1 p t kp hstart hstartt (Or.inr hspec) hkp hatk
  · -- (c) a non-double-push follow-up move clears the target
    intro hnd
    cases hpc : getSq gs1 a with
    | Empty =>
      unfold do_move
      rw [hpc]
    | Occupied piece c =>
      cases piece with
      | Pawn hmx =>
        have hne2 : ((b.y : Int) - (a.y : Int)).natAbs ≠ 2 := hnd hmx c hpc
        unfold do_move
        rw [hpc]
        dsimp only
        rw [if_neg hne2, ha]
        split_ifs <;> rfl
      | Knight =>
        unfold do_move
        rw [hpc]
      | Bishop =>
        unfold do_move
        rw [hpc]
      | Rook =>
        unfold do_move
        rw [hpc]
      | Queen =>
        unfold do_move
        rw [hpc]
      | King =>
        unfold do_move
        rw [hpc]
  · -- (cʹ) after any intervening move it is no longer the capturer's turn
    intro hm2 hpocc2
    have hturn : (do_move gs1 a b).turn = gs1.turn.not := by
      unfold do_move
      cases hpc : getSq gs1 a with
      | Empty => rfl
      | Occupied piece c => cases piece <;> rfl
    have hstart : is_legal_start (do_move gs1 a b) p = false := by
      unfold is_legal_start
      rw [hpocc2, hturn]
      simp [Color.ne_not]
    unfold is_legal
    rw [hstart]
    rw [if_pos (by simp)]
  · -- (d) with no en-passant target a pawn diagonal onto an empty square
    -- is rejected
    intro hm3 c3 heps hpocc3 ht3 hxne
    cases hst : is_legal_start gs2 p with
    | false =>
      unfold is_legal
      rw [hst]
      rw [if_pos (by simp)]
    | true =>
      have hmov : is_attacking_movement_ok gs2 p t false = false := by
        unfold is_attacking_movement_ok
        rw [hpocc3]
        simp [ht3]
      have hspec : could_be_legal gs2 p t = false := by
        unfold could_be_legal
        rw [hpocc3, ht3, heps]
        dsimp only
        rw [if_neg (by omega : ¬((t.x : Int) - (p.x : Int) = 0))]
      cases hst2 : is_legal_start gs2 t with
      | true =>
        unfold is_legal
        rw [hst, hst2]
        rw [if_neg (by simp), if_pos rfl]
      | false =>
        unfold is_legal
        rw [hst, hst2, hmov, hspec]
        rw [if_neg (by simp), if_neg (by simp), if_pos (by simp)]

/-- White pawn on e2 ready for a double advance; black pawn on d4 ready to
capture en passant; kings on a8 (black) and a1 (white). White to move. -/
def gsC5 : GameState :=
  { board_state := boardOfRows
      [[bKing, sqE, sqE, sqE, sqE, sqE, sqE, sqE],
       [], [], [],
       [sqE, sqE, sqE, bPawn, sqE, sqE, sqE, sqE],
       [],
       [sqE, sqE, sqE, sqE, wPawn, sqE, sqE, sqE],
       [wKing, sqE, sqE, sqE, sqE, sqE, sqE, sqE]]
    turn := Color.White
    black_can_castle_left := false
    white_can_castle_left := false
    black_can_castle_right := false
    white_can_castle_right := false
    en_passant_square := none }

/-- C5 witness: after e2–e4 the target is e4 and d4×e3 is legal; after the
black king's intervening move a8–a7 the target is cleared and the same
capture is rejected; and on the original board (no target) the diagonal
pawn move onto the empty square is rejected. -/
theorem en_passant_window_witness :
    (do_move gsC5 ⟨4, 6⟩ ⟨4, 4⟩).en_passant_square = some ⟨4, 4⟩ ∧
    is_legal (do_move gsC5 ⟨4, 6⟩ ⟨4, 4⟩) ⟨3, 4⟩ ⟨4, 5⟩ = true ∧
    (do_move (do_move gsC5 ⟨4, 6⟩ ⟨4, 4⟩) ⟨0, 0⟩ ⟨0, 1⟩).en_passant_square
      = none ∧
    is_legal (do_move (do_move gsC5 ⟨4, 6⟩ ⟨4, 4⟩) ⟨0, 0⟩ ⟨0, 1⟩)
      ⟨3, 4⟩ ⟨4, 5⟩ = false ∧
    is_legal gsC5 ⟨3, 4⟩ ⟨4, 5⟩ = false := by
  obtain ⟨h1, h2, h3, h4, h5⟩ :=
    en_passant_window gsC5 ⟨4, 6⟩ ⟨4, 4⟩ ⟨3, 4⟩ ⟨4, 5⟩ ⟨0, 0⟩ ⟨0, 1⟩ gsC5
      false Color.White (by decide) (by decide)
  exact ⟨h1,
    h2 false (by decide) (by decide) (by decide) (by decide) (by decide)
      (by decide) ⟨⟨0, 0⟩, by decide, by decide⟩,
    h3 (by
      intro hmx cx hcontra
      rw [(by decide : getSq (do_move gsC5 ⟨4, 6⟩ ⟨4, 4⟩) ⟨0, 0⟩
          = BoardSquare.Occupied Piece.King Color.Black)] at hcontra
      simp at hcontra),
    h4 false (by decide),
    h5 false Color.Black (by decide) (by decide) (by decide) (by decide)⟩

theorem bp_ne_of_x {p q : BoardPosition} (h : p.x ≠ q.x) : p ≠ q :=
  fun he => h (congrArg BoardPosition.x he)

theorem bp_ne_of_y {p q : BoardPosition} (h : p.y ≠ q.y) : p ≠ q :=
  fun he => h (congrArg BoardPosition.y he)

theorem bp_ext {p q : BoardPosition} (hx : p.x = q.x) (hy : p.y = q.y) :
    p = q := by
  cases p
  cases q
  simp only at hx hy
  rw [hx, hy]

/-- The castling-rights flag the source's guard consults for the given
side and direction (`is_left` = moving toward file 0). -/
def castle_flag (gs : GameState) (is_left : Bool) : Bool :=
  if gs.turn = Color.Black then
    (if is_left then gs.black_can_castle_left else gs.black_can_castle_right)
  else
    (if is_left then gs.white_can_castle_left else gs.white_can_castle_right)

/-- Square-by-square description of the board after a castling `do_move`:
the king lands on `t`, `f` is vacated, every square other than `f`, `t`,
the transit square and the corner is untouched, the transit square holds
the mover's rook or is untouched (the source's assertion path), and the
corner is emptied or untouched. -/
theorem castle_board_squares (gs : GameState) (f t : BoardPosition) (cx : Nat)
    (hking : getSq gs f = BoardSquare.Occupied Piece.King gs.turn)
    (hty : t.y = f.y)
    (hshape : (t.x = f.x + 2 ∧ cx = 7 ∧ t.x < 8) ∨ (f.x = t.x + 2 ∧ cx = 0)) :
    getSq (do_move gs f t) t = BoardSquare.Occupied Piece.King gs.turn ∧
    getSq (do_move gs f t) f = BoardSquare.Empty ∧
    (∀ q : BoardPosition, q ≠ f → q ≠ t → q ≠ ⟨(f.x + t.x) / 2, f.y⟩ →
      q ≠ ⟨cx, f.y⟩ → getSq (do_move gs f t) q = getSq gs q) ∧
    (getSq (do_move gs f t) ⟨(f.x + t.x) / 2, f.y⟩
        = BoardSquare.Occupied Piece.Rook gs.turn ∨
      getSq (do_move gs f t) ⟨(f.x + t.x) / 2, f.y⟩
        = getSq gs ⟨(f.x + t.x) / 2, f.y⟩) ∧
    ((⟨cx, f.y⟩ : BoardPosition) ≠ t →
      ((getSq (do_move gs f t) ⟨cx, f.y⟩ = BoardSquare.Empty ∧
          getSq gs ⟨cx, f.y⟩ = BoardSquare.Occupied Piece.Rook gs.turn) ∨
        getSq (do_move gs f t) ⟨cx, f.y⟩ = getSq gs ⟨cx, f.y⟩)) := by
  have hft : f ≠ t := by
    rcases hshape with ⟨h1, -, -⟩ | ⟨h1, -⟩ <;> exact bp_ne_of_x (by omega)
  unfold do_move
  rw [hking]
  dsimp only
  rw [if_pos (by rcases hshape with ⟨h1, -, -⟩ | ⟨h1, -⟩ <;> omega :
    ((t.x : Int) - (f.x : Int)).natAbs = 2)]
  have hrx : (if (t.x : Int) - (f.x : Int) < 0 then (0 : Nat) else 7) = cx := by
    rcases hshape with ⟨h1, h2, -⟩ | ⟨h1, h2⟩
    · rw [if_neg (by omega), h2]
    · rw [if_pos (by omega), h2]
  rw [hrx]
  have htrn : ((t.x : Int) - Int.tdiv ((t.x : Int) - (f.x : Int)) 2).toNat
      = (f.x + t.x) / 2 := by
    rcases hshape with ⟨h1, -, -⟩ | ⟨h1, -⟩
    · rw [show (t.x : Int) - (f.x : Int) = 2 by omega,
        show Int.tdiv 2 2 = 1 from rfl]
      omega
    · rw [show (t.x : Int) - (f.x : Int) = -2 by omega,
        show Int.tdiv (-2) 2 = -1 from rfl]
      omega
  rw [htrn, hty]
  have htrnf : ((f.x + t.x) / 2 : Nat) ≠ f.x := by
    rcases hshape with ⟨h1, -, -⟩ | ⟨h1, -⟩ <;> omega
  have htrnt : ((f.x + t.x) / 2 : Nat) ≠ t.x := by
    rcases hshape with ⟨h1, -, -⟩ | ⟨h1, -⟩ <;> omega
  have hcf : cx ≠ f.x := by
    rcases hshape with ⟨h1, h2, h3⟩ | ⟨h1, h2⟩ <;> omega
  have hctrn : cx ≠ (f.x + t.x) / 2 := by
    rcases hshape with ⟨h1, h2, h3⟩ | ⟨h1, h2⟩ <;> omega
  by_cases hg : gs.board_state ⟨cx, f.y⟩ = BoardSquare.Occupied Piece.Rook gs.turn
  · rw [if_pos hg]
    refine ⟨?_, ?_, ?_, ?_, ?_⟩
    · show setSq (setSq _ t _) f BoardSquare.Empty t = _
      rw [setSq_eval, if_neg (Ne.symm hft), setSq_eval, if_pos rfl,
        setSq_eval, if_neg (bp_ne_of_x (Ne.symm hcf)),
        setSq_eval, if_neg (bp_ne_of_x (Ne.symm htrnf))]
      exact hking
    · show setSq _ f BoardSquare.Empty f = _
      rw [setSq_eval, if_pos rfl]
    · intro q hqf hqt hqtrn hqc
      show setSq (setSq _ t _) f BoardSquare.Empty q = _
      rw [setSq_eval, if_neg hqf, setSq_eval, if_neg hqt,
        setSq_eval, if_neg hqc, setSq_eval, if_neg hqtrn]
      rfl
    · left
      show setSq (setSq _ t _) f BoardSquare.Empty _ = _
      rw [setSq_eval, if_neg (bp_ne_of_x htrnf), setSq_eval,
        if_neg (bp_ne_of_x htrnt),
        setSq_eval, if_neg (bp_ne_of_x (Ne.symm hctrn)),
        setSq_eval, if_pos rfl]
    · intro hct
      left
      refine ⟨?_, hg⟩
      show setSq (setSq _ t _) f BoardSquare.Empty _ = _
      rw [setSq_eval, if_neg (bp_ne_of_x hcf), setSq_eval, if_neg hct,
        setSq_eval, if_pos rfl]
  · rw [if_neg hg]
    refine ⟨?_, ?_, ?_, ?_, ?_⟩
    · show setSq (setSq _ t _) f BoardSquare.Empty t = _
      rw [setSq_eval, if_neg (Ne.symm hft), setSq_eval, if_pos rfl]
      exact hking
    · show setSq _ f BoardSquare.Empty f = _
      rw [setSq_eval, if_pos rfl]
    · intro q hqf hqt hqtrn hqc
      show setSq (setSq _ t _) f BoardSquare.Empty q = _
      rw [setSq_eval, if_neg hqf, setSq_eval, if_neg hqt]
      rfl
    · right
      show setSq (setSq _ t _) f BoardSquare.Empty _ = _
      rw [setSq_eval, if_neg (bp_ne_of_x htrnf), setSq_eval,
        if_neg (bp_ne_of_x htrnt)]
      rfl
    · intro hct
      right
      show setSq (setSq _ t _) f BoardSquare.Empty _ = _
      rw [setSq_eval, if_neg (bp_ne_of_x hcf), setSq_eval, if_neg hct]
      rfl

/-- The source's castling-rights guard implies the corresponding
`castle_flag`. -/
theorem castle_flag_true_of_guard (gs : GameState) (il : Bool)
    (hgd : gs.turn = Color.Black ∧ ((il = true ∧ gs.black_can_castle_left = true) ∨
        (¬il = true ∧ gs.black_can_castle_right = true)) ∨
      gs.turn = Color.White ∧ ((il = true ∧ gs.white_can_castle_left = true) ∨
        (¬il = true ∧ gs.white_can_castle_right = true))) :
    castle_flag gs il = true := by
  unfold castle_flag
  rcases hgd with ⟨htb, hgd2⟩ | ⟨htw, hgd2⟩
  · rw [if_pos htb]
    rcases hgd2 with ⟨h1, h2⟩ | ⟨h1, h2⟩
    · rw [if_pos h1]
      exact h2
    · rw [if_neg h1]
      exact h2
  · rw [if_neg (by rw [htw]; simp)]
    rcases hgd2 with ⟨h1, h2⟩ | ⟨h1, h2⟩
    · rw [if_pos h1]
      exact h2
    · rw [if_neg h1]
      exact h2

/-- Core of the landing-square case of the castling-denial claim: when a
castling-shaped move reaches the engine's post-move self-check and the
landing square is attacked beforehand, the relocated king is still
attacked afterwards — every pre-move attack on the landing square
survives the castling rearrangement — so the self-check cannot report the
king safe. -/
theorem castle_denied_main (gs : GameState) (f t kp : BoardPosition) (cx : Nat)
    (hking : getSq gs f = BoardSquare.Occupied Piece.King gs.turn)
    (hfx : f.x < 8) (hfy : f.y < 8) (htx : t.x < 8) (hty : t.y = f.y)
    (hshape : (t.x = f.x + 2 ∧ cx = 7 ∧ t.x < 8) ∨ (f.x = t.x + 2 ∧ cx = 0))
    (huniq : ∀ q ∈ allPositions,
      getSq gs q = BoardSquare.Occupied Piece.King gs.turn → q = f)
    (hnf : is_legal_start gs t = false)
    (hrk : is_valid_rook_move gs f ⟨cx, f.y⟩ = true)
    (hkp : findKing (do_move gs f t) gs.turn = some kp)
    (hsafe : is_square_attacked (do_move gs f t) kp gs.turn.not = false)
    (hatk : is_square_attacked gs t gs.turn.not = true) : False := by
  have hxarith : ((f.x + t.x) / 2 ≠ f.x) ∧ ((f.x + t.x) / 2 ≠ t.x) ∧ cx ≠ f.x ∧
      cx ≠ (f.x + t.x) / 2 ∧ (f.x + t.x) / 2 < 8 := by
    rcases hshape with ⟨h1, h2, h3⟩ | ⟨h1, h2⟩ <;> omega
  obtain ⟨ht1, ht2, hc1, hc2, htlt⟩ := hxarith
  have hts : getSq gs t = BoardSquare.Empty := by
    cases hsq : getSq gs t with
    | Empty => rfl
    | Occupied pc c =>
      exfalso
      by_cases hcw : c = gs.turn
      · unfold is_legal_start at hnf
        rw [hsq] at hnf
        simp [hcw] at hnf
      · have hcn : c = gs.turn.not := by
          cases c <;> cases hct : gs.turn <;> simp_all [Color.not]
        exact attacked_guard gs t gs.turn.not hatk pc (by rw [hsq, hcn])
  have htrnE : getSq gs ⟨(f.x + t.x) / 2, f.y⟩ = BoardSquare.Empty := by
    rcases (is_valid_rook_move_iff gs f ⟨cx, f.y⟩).mp hrk with ⟨hvx, -⟩ | ⟨-, hbet⟩
    · have hvx2 : f.x = cx := hvx
      omega
    · have hbet2 : ∀ i : Nat, min f.x cx < i → i < max f.x cx →
          getSq gs ⟨i, f.y⟩ = BoardSquare.Empty := hbet
      exact hbet2 _ (by omega) (by omega)
  obtain ⟨hA, hB, hC, hE, hF⟩ := castle_board_squares gs f t cx hking hty hshape
  have hfk : findKing (do_move gs f t) gs.turn = some t := by
    apply findKing_eq_some _ _ t htx (by omega) hA
    intro q hqx hqy hq
    by_cases hqt : q = t
    · exact hqt
    exfalso
    by_cases hqf : q = f
    · rw [hqf, hB] at hq
      exact BoardSquare.noConfusion hq
    by_cases hqtrn : q = ⟨(f.x + t.x) / 2, f.y⟩
    · rcases hE with hrook | hun
      · rw [hqtrn, hrook] at hq
        simp at hq
      · rw [hqtrn, hun] at hq
        have hqq := huniq _ ((mem_allPositions _).mpr
          ⟨by first | omega | (dsimp only; omega),
           by first | omega | (dsimp only; omega)⟩) hq
        exact ht1 (congrArg BoardPosition.x hqq)
    by_cases hqc : q = ⟨cx, f.y⟩
    · have hcnet : (⟨cx, f.y⟩ : BoardPosition) ≠ t := by
        rw [← hqc]
        exact hqt
      rcases hF hcnet with ⟨hpost, -⟩ | hun
      · rw [hqc, hpost] at hq
        exact BoardSquare.noConfusion hq
      · rw [hqc, hun] at hq
        have hqq := huniq _ ((mem_allPositions _).mpr
          ⟨by first | omega |
            (dsimp only; rcases hshape with ⟨-, h2, -⟩ | ⟨-, h2⟩ <;> omega),
           by first | omega | (dsimp only; omega)⟩) hq
        exact hc1 (congrArg BoardPosition.x hqq)
    rw [hC q hqf hqt hqtrn hqc] at hq
    exact hqf (huniq q ((mem_allPositions q).mpr ⟨hqx, hqy⟩) hq)
  rw [hfk] at hkp
  injection hkp with hkpt
  rw [← hkpt] at hsafe
  obtain ⟨p, pc, hpx, hpy2, hpocc, hpmov⟩ := attacked_elim gs t gs.turn.not hatk
  have hpf : p ≠ f := by
    intro he
    rw [he, hking] at hpocc
    simp only [BoardSquare.Occupied.injEq] at hpocc
    exact Color.ne_not gs.turn hpocc.2
  have hpt : p ≠ t := by
    intro he
    rw [he, hts] at hpocc
    exact BoardSquare.noConfusion hpocc
  have hptrn : p ≠ ⟨(f.x + t.x) / 2, f.y⟩ := by
    intro he
    rw [he, htrnE] at hpocc
    exact BoardSquare.noConfusion hpocc
  have hpocc2 : getSq (do_move gs f t) p = BoardSquare.Occupied pc gs.turn.not := by
    by_cases hpcor : p = ⟨cx, f.y⟩
    · have hcnet : (⟨cx, f.y⟩ : BoardPosition) ≠ t := by
        rw [← hpcor]
        exact hpt
      rcases hF hcnet with ⟨-, hpre⟩ | hun
      · exfalso
        rw [hpcor, hpre] at hpocc
        simp only [BoardSquare.Occupied.injEq] at hpocc
        exact Color.ne_not gs.turn hpocc.2
      · rw [hpcor] at hpocc ⊢
        rw [hun]
        exact hpocc
    · rw [hC p hpf hpt hptrn hpcor]
      exact hpocc
  have hsame : ∀ q : BoardPosition, q.y ≠ t.y →
      getSq (do_move gs f t) q = getSq gs q := by
    intro q hqy
    exact hC q (bp_ne_of_y (by omega)) (bp_ne_of_y hqy)
      (bp_ne_of_y (by first | omega | (dsimp only; omega))) (bp_ne_of_y (by first | omega | (dsimp only; omega)))
  have hrank : is_valid_rook_move gs p t = true → p.y = t.y →
      ∀ i : Nat, min p.x t.x < i → i < max p.x t.x →
        getSq (do_move gs f t) ⟨i, t.y⟩ = BoardSquare.Empty := by
    intro hrv hpyt i h1 h2
    rcases (is_valid_rook_move_iff gs p t).mp hrv with ⟨hvx, -⟩ | ⟨-, hbet⟩
    · omega
    · have hbet2 : ∀ j : Nat, min p.x t.x < j → j < max p.x t.x →
          getSq gs ⟨j, p.y⟩ = BoardSquare.Empty := hbet
      by_cases hif : i = f.x
      · have hqf : (⟨i, t.y⟩ : BoardPosition) = f := bp_ext (by first | omega | (dsimp only; omega)) (by first | omega | (dsimp only; omega))
        rw [hqf]
        exact hB
      by_cases hit : i = t.x
      · omega
      by_cases htrni : i = (f.x + t.x) / 2
      · exfalso
        rcases hshape with ⟨hR, -, -⟩ | ⟨hL, -⟩
        · by_cases hplt : p.x < f.x
          · have hemp := hbet2 f.x (by omega) (by omega)
            rw [show (⟨f.x, p.y⟩ : BoardPosition) = f from bp_ext rfl (by first | omega | (dsimp only; omega)),
              hking] at hemp
            exact BoardSquare.noConfusion hemp
          · by_cases hpeq : p.x = f.x
            · exact hpf (bp_ext hpeq (by first | omega | (dsimp only; omega)))
            · omega
        · by_cases hplt : f.x < p.x
          · have hemp := hbet2 f.x (by omega) (by omega)
            rw [show (⟨f.x, p.y⟩ : BoardPosition) = f from bp_ext rfl (by first | omega | (dsimp only; omega)),
              hking] at hemp
            exact BoardSquare.noConfusion hemp
          · by_cases hpeq : p.x = f.x
            · exact hpf (bp_ext hpeq (by first | omega | (dsimp only; omega)))
            · omega
      by_cases hicor : i = cx
      · have hcnet : (⟨cx, f.y⟩ : BoardPosition) ≠ t := bp_ne_of_x (by omega)
        have hqpos : (⟨i, t.y⟩ : BoardPosition) = ⟨cx, f.y⟩ :=
          bp_ext (by first | omega | (dsimp only; omega)) (by first | omega | (dsimp only; omega))
        rcases hF hcnet with ⟨hpost, -⟩ | hun
        · rw [hqpos, hpost]
        · rw [hqpos, hun]
          have hemp := hbet2 i (by omega) (by omega)
          rw [show (⟨i, p.y⟩ : BoardPosition) = ⟨cx, f.y⟩ from
            bp_ext (by first | omega | (dsimp only; omega)) (by first | omega | (dsimp only; omega))] at hemp
          exact hemp
      · rw [hC ⟨i, t.y⟩ (bp_ne_of_x hif) (bp_ne_of_x hit)
          (bp_ne_of_x (by first | omega | (dsimp only; omega))) (bp_ne_of_x (by first | omega | (dsimp only; omega)))]
        have hemp := hbet2 i h1 h2
        rw [show (⟨i, p.y⟩ : BoardPosition) = ⟨i, t.y⟩ from
          bp_ext rfl (by first | omega | (dsimp only; omega))] at hemp
        exact hemp
  have hpmov2 := movement_persist gs (do_move gs f t) p t pc gs.turn.not hpocc
    hpocc2 hpmov hsame hrank
  have hattacked := attacked_intro (do_move gs f t) p t pc gs.turn.not hpx hpy2
    hpocc2 hpmov2
    (by
      intro pc2 heq
      rw [hA] at heq
      simp only [BoardSquare.Occupied.injEq] at heq
      exact Color.ne_not gs.turn heq.2)
  rw [hattacked] at hsafe
  exact Bool.noConfusion hsafe

/-- C3: a two-square horizontal king move (castling) is rejected whenever
the corresponding per-side castling-rights flag is false, or some square
strictly between the king's and the rook's origin squares is occupied, or
the king's start square, the square it passes through, or its landing
square is attacked by the opponent. The board is assumed to contain only
one King of the moving color (the data-model invariant the engine's
post-move king lookup relies on). -/
theorem castling_denied (gs : GameState) (f t : BoardPosition)
    (hking : getSq gs f = BoardSquare.Occupied Piece.King gs.turn)
    (hfx : f.x < 8) (hfy : f.y < 8) (htx : t.x < 8) (hty : t.y = f.y)
    (hdx : t.x = f.x + 2 ∨ f.x = t.x + 2)
    (huniq : ∀ q ∈ allPositions,
      getSq gs q = BoardSquare.Occupied Piece.King gs.turn → q = f)
    (hdeny : castle_flag gs (decide (t.x < f.x)) = false ∨
      (∃ i : Nat, min f.x (if t.x < f.x then 0 else 7) < i ∧
          i < max f.x (if t.x < f.x then 0 else 7) ∧
          getSq gs ⟨i, f.y⟩ ≠ BoardSquare.Empty) ∨
      is_square_attacked gs f gs.turn.not = true ∨
      is_square_attacked gs ⟨(f.x + t.x) / 2, f.y⟩ gs.turn.not = true ∨
      is_square_attacked gs t gs.turn.not = true) :
    is_legal gs f t = false := by
  cases hl : is_legal gs f t with
  | false => rfl
  | true =>
    exfalso
    obtain ⟨hstart, hnf, hgeom, kp, hkp, hsafe⟩ := is_legal_elim gs f t hl
    have hmov : is_attacking_movement_ok gs f t false = false := by
      unfold is_attacking_movement_ok
      rw [hking]
      dsimp only
      have hna : ¬(((t.x : Int) - (f.x : Int)).natAbs ≤ 1) := by omega
      simp [hna]
    have hcbl : could_be_legal gs f t = true := by
      rcases hgeom with h | h
      · rw [hmov] at h
        cases h
      · exact h
    unfold could_be_legal at hcbl
    rw [hking] at hcbl
    dsimp only at hcbl
    rw [if_neg (by omega :
      ¬((t.y : Int) - (f.y : Int) ≠ 0 ∨
        ((t.x : Int) - (f.x : Int)).natAbs ≠ 2))] at hcbl
    split_ifs at hcbl with hgd hil hrk hrk2
    all_goals try exact Bool.noConfusion hcbl
    · -- queenside (leftward) castling
      have hL : f.x = t.x + 2 := by
        have hlt := of_decide_eq_true hil
        omega
      have hatkf : is_square_attacked gs f gs.turn.not = false := by
        cases hh : is_square_attacked gs f gs.turn.not
        · rfl
        · rw [hh] at hcbl
          simp at hcbl
      have hatktr : is_square_attacked gs
          ⟨((f.x : Int) + Int.tdiv ((t.x : Int) - (f.x : Int)) 2).toNat, f.y⟩
          gs.turn.not = false := by
        cases hh : is_square_attacked gs
            ⟨((f.x : Int) + Int.tdiv ((t.x : Int) - (f.x : Int)) 2).toNat, f.y⟩
            gs.turn.not
        · rfl
        · rw [hh] at hcbl
          simp at hcbl
      rw [show (⟨((f.x : Int) + Int.tdiv ((t.x : Int) - (f.x : Int)) 2).toNat, f.y⟩
            : BoardPosition) = ⟨(f.x + t.x) / 2, f.y⟩ from
          bp_ext (by
            dsimp only
            rw [show (t.x : Int) - (f.x : Int) = -2 by omega,
              show Int.tdiv (-2) 2 = -1 from rfl]
            omega) rfl] at hatktr
      rcases hdeny with hflag | hpath | hatk1 | hatk2 | hatk3
      · have hcff := castle_flag_true_of_guard gs
          (decide ((t.x : Int) - (f.x : Int) < 0)) hgd
        rw [show (decide ((t.x : Int) - (f.x : Int) < 0)) = (decide (t.x < f.x))
          from decide_eq_decide.mpr (by omega)] at hcff
        rw [hcff] at hflag
        exact Bool.noConfusion hflag
      · obtain ⟨i, hi1, hi2, hiocc⟩ := hpath
        rw [if_pos (by omega)] at hi1 hi2
        rcases (is_valid_rook_move_iff gs f ⟨0, f.y⟩).mp hrk with ⟨hvx, -⟩ | ⟨-, hbet⟩
        · have hvx2 : f.x = 0 := hvx
          omega
        · have hbet2 : ∀ j : Nat, min f.x 0 < j → j < max f.x 0 →
              getSq gs ⟨j, f.y⟩ = BoardSquare.Empty := hbet
          exact hiocc (hbet2 i (by omega) (by omega))
      · rw [hatk1] at hatkf
        exact Bool.noConfusion hatkf
      · rw [hatk2] at hatktr
        exact Bool.noConfusion hatktr
      · exact castle_denied_main gs f t kp 0 hking hfx hfy htx hty
          (Or.inr ⟨hL, rfl⟩) huniq hnf hrk hkp hsafe hatk3
    · -- kingside (rightward) castling
      have hR : t.x = f.x + 2 := by
        have hge : ¬((t.x : Int) - (f.x : Int) < 0) := fun hc => hil (decide_eq_true hc)
        omega
      have hatkf : is_square_attacked gs f gs.turn.not = false := by
        cases hh : is_square_attacked gs f gs.turn.not
        · rfl
        · rw [hh] at hcbl
          simp at hcbl
      have hatktr : is_square_attacked gs
          ⟨((f.x : Int) + Int.tdiv ((t.x : Int) - (f.x : Int)) 2).toNat, f.y⟩
          gs.turn.not = false := by
        cases hh : is_square_attacked gs
            ⟨((f.x : Int) + Int.tdiv ((t.x : Int) - (f.x : Int)) 2).toNat, f.y⟩
            gs.turn.not
        · rfl
        · rw [hh] at hcbl
          simp at hcbl
      rw [show (⟨((f.x : Int) + Int.tdiv ((t.x : Int) - (f.x : Int)) 2).toNat, f.y⟩
            : BoardPosition) = ⟨(f.x + t.x) / 2, f.y⟩ from
          bp_ext (by
            dsimp only
            rw [show (t.x : Int) - (f.x : Int) = 2 by omega,
              show Int.tdiv 2 2 = 1 from rfl]
            omega) rfl] at hatktr
      rcases hdeny with hflag | hpath | hatk1 | hatk2 | hatk3
      · have hcff := castle_flag_true_of_guard gs
          (decide ((t.x : Int) - (f.x : Int) < 0)) hgd
        rw [show (decide ((t.x : Int) - (f.x : Int) < 0)) = (decide (t.x < f.x))
          from decide_eq_decide.mpr (by omega)] at hcff
        rw [hcff] at hflag
        exact Bool.noConfusion hflag
      · obtain ⟨i, hi1, hi2, hiocc⟩ := hpath
        rw [if_neg (by omega)] at hi1 hi2
        rcases (is_valid_rook_move_iff gs f ⟨7, f.y⟩).mp hrk2 with ⟨hvx, -⟩ | ⟨-, hbet⟩
        · have hvx2 : f.x = 7 := hvx
          omega
        · have hbet2 : ∀ j : Nat, min f.x 7 < j → j < max f.x 7 →
              getSq gs ⟨j, f.y⟩ = BoardSquare.Empty := hbet
          exact hiocc (hbet2 i (by omega) (by omega))
      · rw [hatk1] at hatkf
        exact Bool.noConfusion hatkf
      · rw [hatk2] at hatktr
        exact Bool.noConfusion hatktr
      · exact castle_denied_main gs f t kp 7 hking hfx hfy htx hty
          (Or.inl ⟨hR, rfl, htx⟩) huniq hnf hrk2 hkp hsafe hatk3

/-- White king on e1 and rook on a1 in castling position, but with the
queenside castling-rights flag already cleared; black king on h8. -/
def gsC3 : GameState :=
  { board_state := boardOfRows
      [[sqE, sqE, sqE, sqE, sqE, sqE, sqE, bKing],
       [], [], [], [], [], [],
       [wRook, sqE, sqE, sqE, wKing, sqE, sqE, sqE]]
    turn := Color.White
    black_can_castle_left := false
    white_can_castle_left := false
    black_can_castle_right := false
    white_can_castle_right := true
    en_passant_square := none }

/-- C3 witness: on `gsC3` the queenside castling move e1–c1 is rejected
because the corresponding castling-rights flag is false. -/
theorem castling_denied_witness :
    getSq gsC3 ⟨4, 7⟩ = BoardSquare.Occupied Piece.King Color.White ∧
    castle_flag gsC3 (decide ((2 : Nat) < 4)) = false ∧
    is_legal gsC3 ⟨4, 7⟩ ⟨2, 7⟩ = false :=
  ⟨by decide, by decide,
    castling_denied gsC3 ⟨4, 7⟩ ⟨2, 7⟩ (by decide) (by decide) (by decide)
      (by decide) (by decide) (Or.inr (by decide)) (by decide)
      (Or.inl (by decide))⟩

/-- If the side to move does not already attack the opponent's King, then
no legality-approved move can have the opponent's King's square as its
target: a geometric capture would witness an attack, a pawn special move
requires an empty target, and a castling king would have its transit
square attacked by the enemy king standing on the landing square. -/
theorem legal_target_not_enemy_king (gs : GameState) (f t : BoardPosition)
    (hfx : f.x < 8) (hfy : f.y < 8) (htx : t.x < 8) (hty : t.y < 8)
    (hek : ∀ p ∈ allPositions,
      getSq gs p = BoardSquare.Occupied Piece.King gs.turn.not →
      is_square_attacked gs p gs.turn = false)
    (hleg : is_legal gs f t = true) :
    getSq gs t ≠ BoardSquare.Occupied Piece.King gs.turn.not := by
  intro hcontra
  obtain ⟨hstart, hnf, hgeom, -⟩ := is_legal_elim gs f t hleg
  have hekt := hek t ((mem_allPositions t).mpr ⟨htx, hty⟩) hcontra
  have hocf : ∃ pc, getSq gs f = BoardSquare.Occupied pc gs.turn := by
    unfold is_legal_start at hstart
    cases hsq : getSq gs f with
    | Empty =>
      rw [hsq] at hstart
      exact Bool.noConfusion hstart
    | Occupied pc c =>
      rw [hsq] at hstart
      have hc : c = gs.turn := of_decide_eq_true hstart
      exact ⟨pc, by rw [hc]⟩
  obtain ⟨pcf, hocf⟩ := hocf
  rcases hgeom with hmv | hsp
  · have hatk := attacked_intro gs f t pcf gs.turn hfx hfy hocf
      (movement_pretend_mono gs f t hmv)
      (by
        intro pc2 heq
        rw [hcontra] at heq
        simp only [BoardSquare.Occupied.injEq] at heq
        exact Color.ne_not gs.turn heq.2.symm)
    rw [hatk] at hekt
    exact Bool.noConfusion hekt
  · unfold could_be_legal at hsp
    rw [hocf] at hsp
    cases pcf with
    | Knight => exact Bool.noConfusion hsp
    | Bishop => exact Bool.noConfusion hsp
    | Rook => exact Bool.noConfusion hsp
    | Queen => exact Bool.noConfusion hsp
    | Pawn hm =>
      dsimp only at hsp
      rw [hcontra] at hsp
      exact Bool.noConfusion hsp
    | King =>
      dsimp only at hsp
      by_cases hsh : ((t.y : Int) - (f.y : Int) ≠ 0 ∨
          ((t.x : Int) - (f.x : Int)).natAbs ≠ 2)
      · rw [if_pos hsh] at hsp
        exact Bool.noConfusion hsp
      rw [if_neg hsh] at hsp
      push_neg at hsh
      obtain ⟨hdy0, hdx2⟩ := hsh
      split_ifs at hsp with hgd2 hil2 hrkL hrkR
      all_goals try exact Bool.noConfusion hsp
      · -- leftward castling onto the enemy king
        have hLx : f.x = t.x + 2 := by
          have hlt := of_decide_eq_true hil2
          omega
        have hatktr : is_square_attacked gs
            ⟨((f.x : Int) + Int.tdiv ((t.x : Int) - (f.x : Int)) 2).toNat, f.y⟩
            gs.turn.not = false := by
          cases hh : is_square_attacked gs
              ⟨((f.x : Int) + Int.tdiv ((t.x : Int) - (f.x : Int)) 2).toNat, f.y⟩
              gs.turn.not
          · rfl
          · rw [hh] at hsp
            simp at hsp
        rw [show (⟨((f.x : Int) + Int.tdiv ((t.x : Int) - (f.x : Int)) 2).toNat, f.y⟩
              : BoardPosition) = ⟨f.x - 1, f.y⟩ from
            bp_ext (by
              dsimp only
              rw [show (t.x : Int) - (f.x : Int) = -2 by omega,
                show Int.tdiv (-2) 2 = -1 from rfl]
              omega) rfl] at hatktr
        have htrnE : getSq gs ⟨f.x - 1, f.y⟩ = BoardSquare.Empty := by
          rcases (is_valid_rook_move_iff gs f ⟨0, f.y⟩).mp hrkL with ⟨hvx, -⟩ | ⟨-, hbet⟩
          · have hvx2 : f.x = 0 := hvx
            omega
          · have hbet2 : ∀ j : Nat, min f.x 0 < j → j < max f.x 0 →
                getSq gs ⟨j, f.y⟩ = BoardSquare.Empty := hbet
            exact hbet2 _ (by omega) (by omega)
        have hmv2 : is_attacking_movement_ok gs t ⟨f.x - 1, f.y⟩ true = true := by
          unfold is_attacking_movement_ok
          rw [hcontra]
          dsimp only
          simp only [Bool.and_eq_true, decide_eq_true_eq]
          constructor <;> omega
        have hatk2 := attacked_intro gs t ⟨f.x - 1, f.y⟩ Piece.King gs.turn.not
          htx hty hcontra hmv2
          (by
            intro pc2 heq
            rw [htrnE] at heq
            exact BoardSquare.noConfusion heq)
        rw [hatk2] at hatktr
        exact Bool.noConfusion hatktr
      · -- rightward castling onto the enemy king
        have hRx : t.x = f.x + 2 := by
          have hge : ¬((t.x : Int) - (f.x : Int) < 0) :=
            fun hc => hil2 (decide_eq_true hc)
          omega
        have hatktr : is_square_attacked gs
            ⟨((f.x : Int) + Int.tdiv ((t.x : Int) - (f.x : Int)) 2).toNat, f.y⟩
            gs.turn.not = false := by
          cases hh : is_square_attacked gs
              ⟨((f.x : Int) + Int.tdiv ((t.x : Int) - (f.x : Int)) 2).toNat, f.y⟩
              gs.turn.not
          · rfl
          · rw [hh] at hsp
            simp at hsp
        rw [show (⟨((f.x : Int) + Int.tdiv ((t.x : Int) - (f.x : Int)) 2).toNat, f.y⟩
              : BoardPosition) = ⟨f.x + 1, f.y⟩ from
            bp_ext (by
              dsimp only
              rw [show (t.x : Int) - (f.x : Int) = 2 by omega,
                show Int.tdiv 2 2 = 1 from rfl]
              omega) rfl] at hatktr
        have htrnE : getSq gs ⟨f.x + 1, f.y⟩ = BoardSquare.Empty := by
          rcases (is_valid_rook_move_iff gs f ⟨7, f.y⟩).mp hrkR with ⟨hvx, -⟩ | ⟨-, hbet⟩
          · have hvx2 : f.x = 7 := hvx
            omega
          · have hbet2 : ∀ j : Nat, min f.x 7 < j → j < max f.x 7 →
                getSq gs ⟨j, f.y⟩ = BoardSquare.Empty := hbet
            exact hbet2 _ (by omega) (by omega)
        have hmv2 : is_attacking_movement_ok gs t ⟨f.x + 1, f.y⟩ true = true := by
          unfold is_attacking_movement_ok
          rw [hcontra]
          dsimp only
          simp only [Bool.and_eq_true, decide_eq_true_eq]
          constructor <;> omega
        have hatk2 := attacked_intro gs t ⟨f.x + 1, f.y⟩ Piece.King gs.turn.not
          htx hty hcontra hmv2
          (by
            intro pc2 heq
            rw [htrnE] at heq
            exact BoardSquare.noConfusion heq)
        rw [hatk2] at hatktr
        exact Bool.noConfusion hatktr

/-- A board with a King of color `c` on `k` and no other square holding
one has exactly one King of color `c`. -/
theorem kingCount_one_at (gs : GameState) (c : Color) (k : BoardPosition)
    (hkx : k.x < 8) (hky : k.y < 8)
    (hocc : getSq gs k = BoardSquare.Occupied Piece.King c)
    (huni : ∀ q ∈ allPositions, q ≠ k →
      getSq gs q ≠ BoardSquare.Occupied Piece.King c) :
    kingCount gs c = 1 := by
  rw [kingCount_eq_one_iff]
  refine ⟨k, hkx, hky, hocc, fun q hqx hqy hq => ?_⟩
  by_cases hqk : q = k
  · exact hqk
  · exact absurd hq (huni q ((mem_allPositions q).mpr ⟨hqx, hqy⟩) hqk)

/-- A move that neither removes nor creates a King of color `c` on any
square it touches preserves "exactly one King of color `c`". -/
theorem kingCount_one_untouched (gs gs' : GameState) (c : Color)
    (h1 : kingCount gs c = 1)
    (hchg : ∀ q ∈ allPositions, getSq gs' q ≠ getSq gs q →
      (getSq gs' q ≠ BoardSquare.Occupied Piece.King c ∧
       getSq gs q ≠ BoardSquare.Occupied Piece.King c)) :
    kingCount gs' c = 1 := by
  obtain ⟨k, hkx, hky, hocc, huniq⟩ := (kingCount_eq_one_iff gs c).mp h1
  rw [kingCount_eq_one_iff]
  have hkeep : getSq gs' k = BoardSquare.Occupied Piece.King c := by
    by_cases hch : getSq gs' k = getSq gs k
    · rw [hch]
      exact hocc
    · exact absurd hocc
        (hchg k ((mem_allPositions k).mpr ⟨hkx, hky⟩) hch).2
  refine ⟨k, hkx, hky, hkeep, fun q hqx hqy hq => ?_⟩
  by_cases hch : getSq gs' q = getSq gs q
  · rw [hch] at hq
    exact huniq q hqx hqy hq
  · exact absurd hq (hchg q ((mem_allPositions q).mpr ⟨hqx, hqy⟩) hch).1

/-- The board after a `do_move` of a piece that is neither a pawn nor a
king: the piece is copied to the target and the source square emptied. -/
theorem do_move_simple (gs : GameState) (f t : BoardPosition)
    (hnp : ∀ (hm : Bool) (c : Color),
      getSq gs f ≠ BoardSquare.Occupied (Piece.Pawn hm) c)
    (hnk : ∀ c : Color, getSq gs f ≠ BoardSquare.Occupied Piece.King c) :
    (do_move gs f t).board_state
      = setSq (setSq gs.board_state t (gs.board_state f)) f BoardSquare.Empty := by
  unfold do_move
  cases hsq : getSq gs f with
  | Empty => rfl
  | Occupied pc c =>
    cases pc with
    | Pawn hm => exact absurd hsq (hnp hm c)
    | King => exact absurd hsq (hnk c)
    | Rook => rfl
    | Knight => rfl
    | Bishop => rfl
    | Queen => rfl

/-- The board after a non-castling king `do_move`. -/
theorem do_move_king_plain (gs : GameState) (f t : BoardPosition) (c : Color)
    (hocc : getSq gs f = BoardSquare.Occupied Piece.King c)
    (hndx : ((t.x : Int) - (f.x : Int)).natAbs ≠ 2) :
    (do_move gs f t).board_state
      = setSq (setSq gs.board_state t (gs.board_state f)) f BoardSquare.Empty := by
  unfold do_move
  rw [hocc]
  dsimp only
  rw [if_neg hndx]

/-- The board after a pawn `do_move`: a moved pawn of the side to move on
the target, the source emptied, on top of a base board that is either the
original board or (for the en-passant capture) the original board with the
recorded en-passant square emptied. -/
theorem do_move_pawn_board (gs : GameState) (f t : BoardPosition)
    (hm : Bool) (c : Color)
    (hocc : getSq gs f = BoardSquare.Occupied (Piece.Pawn hm) c) :
    ∃ b1, (do_move gs f t).board_state
        = setSq (setSq b1 t (BoardSquare.Occupied (Piece.Pawn true) gs.turn))
            f BoardSquare.Empty ∧
      (b1 = gs.board_state ∨ ∃ pp, gs.en_passant_square = some pp ∧
        b1 = setSq gs.board_state pp BoardSquare.Empty) := by
  unfold do_move
  rw [hocc]
  dsimp only
  split_ifs with h1 h2
  · exact ⟨gs.board_state, rfl, Or.inl rfl⟩
  · cases heps : gs.en_passant_square with
    | none =>
      exact ⟨gs.board_state, rfl, Or.inl rfl⟩
    | some pp =>
      exact ⟨setSq gs.board_state pp BoardSquare.Empty, rfl,
        Or.inr ⟨pp, rfl, rfl⟩⟩
  · exact ⟨gs.board_state, rfl, Or.inl rfl⟩

/-- Castling preserves "exactly one King per color": the mover's King is
relocated to the landing square and the opponent's King is untouched. -/
theorem castle_preserves_kings (gs : GameState) (f t : BoardPosition) (cx : Nat)
    (hocf : getSq gs f = BoardSquare.Occupied Piece.King gs.turn)
    (htyf : t.y = f.y)
    (hshape : (t.x = f.x + 2 ∧ cx = 7 ∧ t.x < 8) ∨ (f.x = t.x + 2 ∧ cx = 0))
    (hmv1 : kingCount gs gs.turn = 1) (hop1 : kingCount gs gs.turn.not = 1)
    (htek : getSq gs t ≠ BoardSquare.Occupied Piece.King gs.turn.not)
    (hrk : is_valid_rook_move gs f ⟨cx, f.y⟩ = true)
    (hfx : f.x < 8) (hfy : f.y < 8) (htx : t.x < 8) :
    kingCount (do_move gs f t) gs.turn = 1 ∧
    kingCount (do_move gs f t) gs.turn.not = 1 := by
  obtain ⟨hA, hB, hC, hE, hF⟩ := castle_board_squares gs f t cx hocf htyf hshape
  have harith : cx ≠ f.x ∧ (f.x + t.x) / 2 ≠ f.x ∧ (f.x + t.x) / 2 ≠ t.x ∧
      cx ≠ (f.x + t.x) / 2 ∧ (f.x + t.x) / 2 < 8 ∧ cx < 8 := by
    rcases hshape with ⟨h1, h2, h3⟩ | ⟨h1, h2⟩ <;> omega
  obtain ⟨hc1, ht1, ht2, hc2, htlt, hclt⟩ := harith
  have htrnE : getSq gs ⟨(f.x + t.x) / 2, f.y⟩ = BoardSquare.Empty := by
    rcases (is_valid_rook_move_iff gs f ⟨cx, f.y⟩).mp hrk with ⟨hvx, -⟩ | ⟨-, hbet⟩
    · have hvx2 : f.x = cx := hvx
      omega
    · have hbet2 : ∀ j : Nat, min f.x cx < j → j < max f.x cx →
          getSq gs ⟨j, f.y⟩ = BoardSquare.Empty := hbet
      exact hbet2 _ (by omega) (by omega)
  obtain ⟨mk, hmkx, hmky, hmkocc, hmkuniq⟩ := (kingCount_eq_one_iff _ _).mp hmv1
  have hmkf := hmkuniq f hfx hfy hocf
  have hmov : kingCount (do_move gs f t) gs.turn = 1 := by
    apply kingCount_one_at _ _ t htx (by omega) hA
    intro q hqmem hqt hq
    obtain ⟨hqx, hqy⟩ := (mem_allPositions q).mp hqmem
    by_cases hqf : q = f
    · rw [hqf, hB] at hq
      exact BoardSquare.noConfusion hq
    by_cases hqtrn : q = ⟨(f.x + t.x) / 2, f.y⟩
    · rcases hE with hrook | hun
      · rw [hqtrn, hrook] at hq
        simp at hq
      · rw [hqtrn, hun, htrnE] at hq
        exact BoardSquare.noConfusion hq
    by_cases hqc : q = ⟨cx, f.y⟩
    · rcases hF (by rw [← hqc]; exact hqt) with ⟨hpost, -⟩ | hun
      · rw [hqc, hpost] at hq
        exact BoardSquare.noConfusion hq
      · rw [hqc, hun] at hq
        have hqeq := hmkuniq _ (by first | omega | (dsimp only; omega))
          (by first | omega | (dsimp only; omega)) hq
        rw [← hmkf] at hqeq
        exact hc1 (congrArg BoardPosition.x hqeq)
    · rw [hC q hqf hqt hqtrn hqc] at hq
      have hqeq := hmkuniq q hqx hqy hq
      rw [← hmkf] at hqeq
      exact hqf hqeq
  have hopp : kingCount (do_move gs f t) gs.turn.not = 1 := by
    apply kingCount_one_untouched gs _ gs.turn.not hop1
    intro q hqmem hch
    by_cases hqf : q = f
    · constructor
      · rw [hqf, hB]
        exact fun hc => BoardSquare.noConfusion hc
      · rw [hqf, hocf]
        intro hc
        simp only [BoardSquare.Occupied.injEq] at hc
        exact Color.ne_not gs.turn hc.2
    by_cases hqt : q = t
    · constructor
      · rw [hqt, hA]
        intro hc
        simp only [BoardSquare.Occupied.injEq] at hc
        exact Color.ne_not gs.turn hc.2
      · rw [hqt]
        exact htek
    by_cases hqtrn : q = ⟨(f.x + t.x) / 2, f.y⟩
    · constructor
      · rcases hE with hrook | hun
        · rw [hqtrn, hrook]
          intro hc
          simp at hc
        · rw [hqtrn, hun, htrnE]
          exact fun hc => BoardSquare.noConfusion hc
      · rw [hqtrn, htrnE]
        exact fun hc => BoardSquare.noConfusion hc
    by_cases hqc : q = ⟨cx, f.y⟩
    · rcases hF (by rw [← hqc]; exact hqt) with ⟨hpost, hpre⟩ | hun
      · constructor
        · rw [hqc, hpost]
          exact fun hc => BoardSquare.noConfusion hc
        · rw [hqc, hpre]
          intro hc
          simp at hc
      · exfalso
        apply hch
        rw [hqc, hun]
    · exfalso
      apply hch
      rw [hC q hqf hqt hqtrn hqc]
  exact ⟨hmov, hopp⟩

/-- Core of the amended king-preservation statement, phrased for the side
to move and its opponent: a legality-approved `do_move` keeps exactly one
King of each color, provided the opponent's King is not already attacked
(so it cannot be the capture target) and the recorded en-passant square
does not hold a King (the en-passant capture clears that square). -/
theorem do_move_preserves_kings_aux (gs : GameState) (f t : BoardPosition)
    (hmv1 : kingCount gs gs.turn = 1) (hop1 : kingCount gs gs.turn.not = 1)
    (hek : ∀ p ∈ allPositions,
      getSq gs p = BoardSquare.Occupied Piece.King gs.turn.not →
      is_square_attacked gs p gs.turn = false)
    (heps : gs.en_passant_square = none ∨
      ∃ pp, gs.en_passant_square = some pp ∧
        ∀ c : Color, getSq gs pp ≠ BoardSquare.Occupied Piece.King c)
    (hfx : f.x < 8) (hfy : f.y < 8) (htx : t.x < 8) (hty : t.y < 8)
    (hleg : is_legal gs f t = true) :
    kingCount (do_move gs f t) gs.turn = 1 ∧
    kingCount (do_move gs f t) gs.turn.not = 1 := by
  obtain ⟨hstart, hnf, hgeom, -⟩ := is_legal_elim gs f t hleg
  have hocf : ∃ pc, getSq gs f = BoardSquare.Occupied pc gs.turn := by
    unfold is_legal_start at hstart
    cases hsq : getSq gs f with
    | Empty =>
      rw [hsq] at hstart
      exact Bool.noConfusion hstart
    | Occupied pc c =>
      rw [hsq] at hstart
      have hc : c = gs.turn := of_decide_eq_true hstart
      exact ⟨pc, by rw [hc]⟩
  obtain ⟨pcf, hocf⟩ := hocf
  have hft : f ≠ t := by
    intro he
    rw [← he] at hnf
    rw [hstart] at hnf
    exact Bool.noConfusion hnf
  have htek : getSq gs t ≠ BoardSquare.Occupied Piece.King gs.turn.not :=
    legal_target_not_enemy_king gs f t hfx hfy htx hty hek hleg
  have htfk2 : ∀ c : Color, getSq gs t ≠ BoardSquare.Occupied Piece.King c := by
    intro c
    by_cases hc : c = gs.turn
    · rw [hc]
      intro hcontra
      unfold is_legal_start at hnf
      rw [hcontra] at hnf
      simp at hnf
    · have hcn : c = gs.turn.not := by
        cases c <;> cases hct : gs.turn <;> simp_all [Color.not]
      rw [hcn]
      exact htek
  have hboth : (∀ q ∈ allPositions, getSq (do_move gs f t) q ≠ getSq gs q →
      ∀ c : Color, getSq (do_move gs f t) q ≠ BoardSquare.Occupied Piece.King c ∧
        getSq gs q ≠ BoardSquare.Occupied Piece.King c) →
      kingCount (do_move gs f t) gs.turn = 1 ∧
      kingCount (do_move gs f t) gs.turn.not = 1 := by
    intro hdesc
    exact ⟨kingCount_one_untouched gs _ gs.turn hmv1
        (fun q hq hch => hdesc q hq hch gs.turn),
      kingCount_one_untouched gs _ gs.turn.not hop1
        (fun q hq hch => hdesc q hq hch gs.turn.not)⟩
  have hsimple : (∀ (hm2 : Bool) (c2 : Color),
        getSq gs f ≠ BoardSquare.Occupied (Piece.Pawn hm2) c2) →
      (∀ c2 : Color, getSq gs f ≠ BoardSquare.Occupied Piece.King c2) →
      kingCount (do_move gs f t) gs.turn = 1 ∧
      kingCount (do_move gs f t) gs.turn.not = 1 := by
    intro hnp hnk
    have hb3 := do_move_simple gs f t hnp hnk
    apply hboth
    intro q hqmem hch c
    by_cases hqf : q = f
    · constructor
      · rw [hqf]
        show (do_move gs f t).board_state f ≠ _
        rw [hb3, setSq_eval, if_pos rfl]
        exact fun hc => BoardSquare.noConfusion hc
      · rw [hqf]
        exact hnk c
    by_cases hqt : q = t
    · constructor
      · rw [hqt]
        show (do_move gs f t).board_state t ≠ _
        rw [hb3, setSq_eval, if_neg (Ne.symm hft), setSq_eval, if_pos rfl]
        exact hnk c
      · rw [hqt]
        exact htfk2 c
    · exfalso
      apply hch
      show (do_move gs f t).board_state q = gs.board_state q
      rw [hb3, setSq_eval, if_neg hqf, setSq_eval, if_neg hqt]
  cases pcf with
  | Pawn hm =>
    obtain ⟨b1, hb3, hb1⟩ := do_move_pawn_board gs f t hm gs.turn hocf
    apply hboth
    intro q hqmem hch c
    by_cases hqf : q = f
    · constructor
      · rw [hqf]
        show (do_move gs f t).board_state f ≠ _
        rw [hb3, setSq_eval, if_pos rfl]
        exact fun hc => BoardSquare.noConfusion hc
      · rw [hqf, hocf]
        intro hc
        simp at hc
    by_cases hqt : q = t
    · constructor
      · rw [hqt]
        show (do_move gs f t).board_state t ≠ _
        rw [hb3, setSq_eval, if_neg (Ne.symm hft), setSq_eval, if_pos rfl]
        intro hc
        simp at hc
      · rw [hqt]
        exact htfk2 c
    · have hq1 : (do_move gs f t).board_state q = b1 q := by
        rw [hb3, setSq_eval, if_neg hqf, setSq_eval, if_neg hqt]
      rcases hb1 with hb1 | ⟨pp, hpp, hb1⟩
      · exfalso
        apply hch
        show (do_move gs f t).board_state q = gs.board_state q
        rw [hq1, hb1]
      · by_cases hqpp : q = pp
        · constructor
          · show (do_move gs f t).board_state q ≠ _
            rw [hq1, hb1, hqpp, setSq_eval, if_pos rfl]
            exact fun hc => BoardSquare.noConfusion hc
          · rcases heps with hnone | ⟨pp2, hpp2, hkpp⟩
            · rw [hnone] at hpp
              exact Option.noConfusion hpp
            · rw [hpp] at hpp2
              injection hpp2 with he2
              rw [hqpp, he2]
              exact hkpp c
        · exfalso
          apply hch
          show (do_move gs f t).board_state q = gs.board_state q
          rw [hq1, hb1, setSq_eval, if_neg hqpp]
  | Rook =>
    exact hsimple (fun hm2 c2 hc => by rw [hocf] at hc; simp at hc)
      (fun c2 hc => by rw [hocf] at hc; simp at hc)
  | Knight =>
    exact hsimple (fun hm2 c2 hc => by rw [hocf] at hc; simp at hc)
      (fun c2 hc => by rw [hocf] at hc; simp at hc)
  | Bishop =>
    exact hsimple (fun hm2 c2 hc => by rw [hocf] at hc; simp at hc)
      (fun c2 hc => by rw [hocf] at hc; simp at hc)
  | Queen =>
    exact hsimple (fun hm2 c2 hc => by rw [hocf] at hc; simp at hc)
      (fun c2 hc => by rw [hocf] at hc; simp at hc)
  | King =>
    by_cases hcx2 : ((t.x : Int) - (f.x : Int)).natAbs = 2
    · have hgf : is_attacking_movement_ok gs f t false = false := by
        unfold is_attacking_movement_ok
        rw [hocf]
        dsimp only
        have hna : ¬(((t.x : Int) - (f.x : Int)).natAbs ≤ 1) := by omega
        simp [hna]
      have hsp : could_be_legal gs f t = true := by
        rcases hgeom with h | h
        · rw [hgf] at h
          cases h
        · exact h
      unfold could_be_legal at hsp
      rw [hocf] at hsp
      dsimp only at hsp
      by_cases hcond : ((t.y : Int) - (f.y : Int) ≠ 0 ∨
          ((t.x : Int) - (f.x : Int)).natAbs ≠ 2)
      · rw [if_pos hcond] at hsp
        exact absurd hsp (by simp)
      rw [if_neg hcond] at hsp
      push_neg at hcond
      obtain ⟨hdy0, -⟩ := hcond
      have htyf : t.y = f.y := by omega
      split_ifs at hsp with hgd hil hrk hrk2
      all_goals try exact Bool.noConfusion hsp
      · have hL : f.x = t.x + 2 := by
          have hlt := of_decide_eq_true hil
          omega
        exact castle_preserves_kings gs f t 0 hocf htyf (Or.inr ⟨hL, rfl⟩)
          hmv1 hop1 htek hrk hfx hfy htx
      · have hR : t.x = f.x + 2 := by
          have hge : ¬((t.x : Int) - (f.x : Int) < 0) :=
            fun hc => hil (decide_eq_true hc)
          omega
        exact castle_preserves_kings gs f t 7 hocf htyf (Or.inl ⟨hR, rfl, htx⟩)
          hmv1 hop1 htek hrk2 hfx hfy htx
    · have hb3 := do_move_king_plain gs f t gs.turn hocf hcx2
      obtain ⟨mk, hmkx, hmky, hmkocc, hmkuniq⟩ := (kingCount_eq_one_iff _ _).mp hmv1
      have hmkf := hmkuniq f hfx hfy hocf
      constructor
      · apply kingCount_one_at _ _ t htx hty
        · show (do_move gs f t).board_state t = _
          rw [hb3, setSq_eval, if_neg (Ne.symm hft), setSq_eval, if_pos rfl]
          exact hocf
        · intro q hqmem hqt hq
          obtain ⟨hqx, hqy⟩ := (mem_allPositions q).mp hqmem
          by_cases hqf : q = f
          · have hEf : getSq (do_move gs f t) f = BoardSquare.Empty := by
              show (do_move gs f t).board_state f = _
              rw [hb3, setSq_eval, if_pos rfl]
            rw [hqf, hEf] at hq
            exact BoardSquare.noConfusion hq
          · have hun : getSq (do_move gs f t) q = getSq gs q := by
              show (do_move gs f t).board_state q = gs.board_state q
              rw [hb3, setSq_eval, if_neg hqf, setSq_eval, if_neg hqt]
            rw [hun] at hq
            have hqeq := hmkuniq q hqx hqy hq
            rw [← hmkf] at hqeq
            exact absurd hqeq hqf
      · apply kingCount_one_untouched gs _ gs.turn.not hop1
        intro q hqmem hch
        by_cases hqf : q = f
        · constructor
          · rw [hqf]
            show (do_move gs f t).board_state f ≠ _
            rw [hb3, setSq_eval, if_pos rfl]
            exact fun hc => BoardSquare.noConfusion hc
          · rw [hqf, hocf]
            intro hc
            simp only [BoardSquare.Occupied.injEq] at hc
            exact Color.ne_not gs.turn hc.2
        by_cases hqt : q = t
        · constructor
          · rw [hqt]
            show (do_move gs f t).board_state t ≠ _
            rw [hb3, setSq_eval, if_neg (Ne.symm hft), setSq_eval, if_pos rfl]
            have hocf2 : gs.board_state f
                = BoardSquare.Occupied Piece.King gs.turn := hocf
            rw [hocf2]
            intro hc
            simp only [BoardSquare.Occupied.injEq] at hc
            exact Color.ne_not gs.turn hc.2
          · rw [hqt]
            exact htek
        · exfalso
          apply hch
          show (do_move gs f t).board_state q = gs.board_state q
          rw [hb3, setSq_eval, if_neg hqf, setSq_eval, if_neg hqt]

/-- C6 (amended): `do_move` on a legality-approved move preserves the
"exactly one King per color" board invariant — provided additionally that
the opponent's King is not already attacked by the side to move (otherwise
the engine approves capturing it, see the recorded counterexample) and
that the recorded en-passant square, when set, does not hold a King
(`do_move` clears that square on an en-passant-shaped capture). -/
theorem do_move_preserves_kings (gs : GameState) (f t : BoardPosition)
    (hW : kingCount gs Color.White = 1) (hB : kingCount gs Color.Black = 1)
    (hek : ∀ p ∈ allPositions,
      getSq gs p = BoardSquare.Occupied Piece.King gs.turn.not →
      is_square_attacked gs p gs.turn = false)
    (heps : gs.en_passant_square = none ∨
      ∃ pp, gs.en_passant_square = some pp ∧
        ∀ c : Color, getSq gs pp ≠ BoardSquare.Occupied Piece.King c)
    (hfx : f.x < 8) (hfy : f.y < 8) (htx : t.x < 8) (hty : t.y < 8)
    (hleg : is_legal gs f t = true) :
    kingCount (do_move gs f t) Color.White = 1 ∧
    kingCount (do_move gs f t) Color.Black = 1 := by
  have hmv1 : kingCount gs gs.turn = 1 := by
    cases h : gs.turn
    · exact hW
    · exact hB
  have hop1 : kingCount gs gs.turn.not = 1 := by
    cases h : gs.turn
    · exact hB
    · exact hW
  obtain ⟨h1, h2⟩ := do_move_preserves_kings_aux gs f t hmv1 hop1 hek heps
    hfx hfy htx hty hleg
  cases h : gs.turn
  · rw [h] at h1 h2
    exact ⟨h1, h2⟩
  · rw [h] at h1 h2
    exact ⟨h2, h1⟩

/-- A quiet position: white rook on d5, white king on e1, black king on
a8 (top-left corner, coordinates (0,0)), White to move. -/
def gsC6b : GameState :=
  { board_state := boardOfRows
      [[bKing], [], [],
       [sqE, sqE, sqE, wRook],
       [], [], [],
       [sqE, sqE, sqE, sqE, wKing, sqE, sqE, sqE]]
    turn := Color.White
    black_can_castle_left := false
    white_can_castle_left := false
    black_can_castle_right := false
    white_can_castle_right := false
    en_passant_square := none }

/-- C6 witness: the legal rook move (3,3)→(3,5) on `gsC6b` keeps exactly
one King of each color on the board. -/
theorem do_move_preserves_kings_witness :
    kingCount gsC6b Color.White = 1 ∧ kingCount gsC6b Color.Black = 1 ∧
    is_legal gsC6b ⟨3, 3⟩ ⟨3, 5⟩ = true ∧
    kingCount (do_move gsC6b ⟨3, 3⟩ ⟨3, 5⟩) Color.White = 1 ∧
    kingCount (do_move gsC6b ⟨3, 3⟩ ⟨3, 5⟩) Color.Black = 1 :=
  ⟨by decide, by decide, by decide,
    do_move_preserves_kings gsC6b ⟨3, 3⟩ ⟨3, 5⟩ (by decide) (by decide)
      (by decide) (Or.inl rfl) (by decide) (by decide) (by decide) (by decide)
      (by decide)⟩
